import Mathlib

/-!
Verification of the language core of the `less` code-golf practice environment:
a shallow embedding of the AST (src/lang/ast.rs), the tree-walking interpreter
(src/lang/interpreter.rs), the unification-based type checker (src/lang/types.rs),
the test runner (src/runner.rs), and a parser modelled from the specification
grammar (the pest grammar file is not part of the sources; parser.rs only maps
pest pairs to AST nodes).

Machine integers (Rust i64) are modelled as Int; the claims under study do not
exercise overflow.  The interpreter's Rust recursion is modelled with an explicit
fuel parameter (a `none` result means the fuel budget of the model was exhausted,
not a program outcome); the interpreter's own `call_depth` counter is threaded
explicitly in and out of every call, mirroring the mutable `self.call_depth`,
including the early-return (`?`) paths that skip the decrement.
-/

set_option maxHeartbeats 1000000

namespace Less

/-! ### AST (src/lang/ast.rs) -/

inductive BinOpK where
  | add | sub | mul | div | mod | pow
  | eq | neq | lt | gt | lte | gte
  | and | or
  | cons | concat
  | pipeForward | pipeBackward
deriving DecidableEq, Repr

inductive UnOpK where
  | neg
deriving DecidableEq, Repr

inductive Pattern where
  | wildcard
  | var (name : String)
  | num (n : Int)
  | bool (b : Bool)
  | str (s : String)
  | list (pats : List Pattern)
  | cons (head : Pattern) (tail : Pattern)
deriving Repr

inductive Expr where
  | num (n : Int)
  | bool (b : Bool)
  | str (s : String)
  | list (items : List Expr)
  | var (name : String)
  | lambda (params : List String) (body : Expr)
  | app (func : Expr) (args : List Expr)
  | letE (name : String) (value : Expr) (body : Expr)
  | matchE (scrut : Expr) (arms : List (Pattern × Expr))
  | ifE (cond : Expr) (thenBranch : Expr) (elseBranch : Expr)
  | binop (op : BinOpK) (left : Expr) (right : Expr)
  | unop (op : UnOpK) (operand : Expr)
  | range (start : Int) (stop : Int)
  | listComp (expr : Expr) (var : String) (list : Expr) (guards : List Expr)
deriving Repr

/-! ### Runtime values and environments (src/lang/interpreter.rs lines 8-55) -/

inductive Value where
  | num (n : Int)
  | bool (b : Bool)
  | str (s : String)
  | list (items : List Value)
  | function (params : List String) (body : Expr) (env : List (String × Value))
  | builtin (name : String)
  | thunk (expr : Expr) (env : List (String × Value))
deriving Repr

abbrev Env := List (String × Value)

/-- HashMap lookup: first binding wins (insert-then-clone is modelled by
consing, so shadowing works as for HashMap::insert). -/
def envGet (name : String) : Env → Option Value
  | [] => none
  | (k, v) :: rest => if k = name then some v else envGet name rest

/-! The custom PartialEq for Value (interpreter.rs lines 26-36): structural on
Number/Bool/String/List, `false` for every other pair (functions, builtins,
thunks never compare equal). -/

mutual

def valueEq : Value → Value → Bool
  | .num a, .num b => a == b
  | .bool a, .bool b => a == b
  | .str a, .str b => a == b
  | .list a, .list b => valueListEq a b
  | _, _ => false

def valueListEq : List Value → List Value → Bool
  | [], [] => true
  | a :: as_, b :: bs => valueEq a b && valueListEq as_ bs
  | _, _ => false

end

/-! ### Value printing (interpreter.rs `to_string_repr`, lines 39-53).
Decimal printing of i64 is modelled digit-by-digit. -/

def digitChar (d : Nat) : Char := Char.ofNat (48 + d)

/-- Big-endian decimal digits of n; the fuel argument only bounds the
recursion depth (any fuel above n is enough). -/
def natCharsAux : Nat → Nat → List Char
  | 0, _ => []
  | _+1, 0 => []
  | fuel+1, n+1 => natCharsAux fuel ((n+1) / 10) ++ [digitChar ((n+1) % 10)]

def natChars (n : Nat) : List Char :=
  if n = 0 then ['0'] else natCharsAux (n+1) n

def intChars (i : Int) : List Char :=
  if i < 0 then '-' :: natChars (-i).toNat else natChars i.toNat

def intRepr (i : Int) : String := String.mk (intChars i)

/-- Vec::join(", ") on already-rendered items. -/
def joinComma : List String → String
  | [] => ""
  | [s] => s
  | s :: rest => s ++ ", " ++ joinComma rest

mutual

def to_string_repr : Value → String
  | .num n => intRepr n
  | .bool b => if b then "true" else "false"
  | .str s => "\"" ++ s ++ "\""
  | .list items => "[" ++ joinComma (reprListVals items) ++ "]"
  | .function _ _ _ => "<function>"
  | .builtin name => "<builtin: " ++ name ++ ">"
  | .thunk _ _ => "<thunk>"

def reprListVals : List Value → List String
  | [] => []
  | v :: vs => to_string_repr v :: reprListVals vs

end

/-! ### value_to_expr (interpreter.rs lines 680-696) -/

mutual

def value_to_expr : Value → Except String Expr
  | .num n => .ok (.num n)
  | .bool b => .ok (.bool b)
  | .str s => .ok (.str s)
  | .list items =>
    match valueListToExprs items with
    | .error e => .error e
    | .ok es => .ok (.list es)
  | .function params body _ => .ok (.lambda params body)
  | .builtin name => .ok (.var name)
  | .thunk _ _ => .error "Cannot convert value to expression"

def valueListToExprs : List Value → Except String (List Expr)
  | [] => .ok []
  | v :: vs =>
    match value_to_expr v with
    | .error e => .error e
    | .ok e =>
      match valueListToExprs vs with
      | .error e2 => .error e2
      | .ok es => .ok (e :: es)

end

/-! ### Pure binary operators (interpreter.rs lines 507-559, 650-678) -/

def binary_arith (left right : Value) (f : Int → Int → Except String Int) :
    Except String Value :=
  match left, right with
  | .num a, .num b => (f a b).map Value.num
  | _, _ => .error "Arithmetic operation requires numbers"

def binary_cmp (left right : Value) (f : Int → Int → Bool) : Except String Value :=
  match left, right with
  | .num a, .num b => .ok (.bool (f a b))
  | _, _ => .error "Comparison requires numbers"

def binary_bool (left right : Value) (f : Bool → Bool → Bool) : Except String Value :=
  match left, right with
  | .bool a, .bool b => .ok (.bool (f a b))
  | _, _ => .error "Boolean operation requires booleans"

/-- The non-pipe arms of eval_binop after both operands are evaluated.
Division/modulo follow Rust i64 semantics (truncation toward zero); the pipe
cases are unreachable from eval_binop (mirrors the Rust `unreachable!()`). -/
def applyBinOp : BinOpK → Value → Value → Except String Value
  | .add, l, r => binary_arith l r (fun a b => .ok (a + b))
  | .sub, l, r => binary_arith l r (fun a b => .ok (a - b))
  | .mul, l, r => binary_arith l r (fun a b => .ok (a * b))
  | .div, l, r => binary_arith l r (fun a b =>
      if b = 0 then .error "Division by zero" else .ok (Int.tdiv a b))
  | .mod, l, r => binary_arith l r (fun a b =>
      if b = 0 then .error "Modulo by zero" else .ok (Int.tmod a b))
  | .pow, l, r => binary_arith l r (fun a b =>
      if b < 0 then .error "Negative exponent not supported" else .ok (a ^ b.toNat))
  | .eq, l, r => .ok (.bool (valueEq l r))
  | .neq, l, r => .ok (.bool (!(valueEq l r)))
  | .lt, l, r => binary_cmp l r (fun a b => a < b)
  | .gt, l, r => binary_cmp l r (fun a b => b < a)
  | .lte, l, r => binary_cmp l r (fun a b => a ≤ b)
  | .gte, l, r => binary_cmp l r (fun a b => b ≤ a)
  | .and, l, r => binary_bool l r (fun a b => a && b)
  | .or, l, r => binary_bool l r (fun a b => a || b)
  | .cons, l, r =>
    match l, r with
    | item, .list items => .ok (.list (item :: items))
    | _, _ => .error ":: requires element and list"
  | .concat, l, r =>
    match l, r with
    | .list a, .list b => .ok (.list (a ++ b))
    | .str a, .str b => .ok (.str (a ++ b))
    | _, _ => .error "++ requires two lists or two strings"
  | .pipeForward, _, _ => .error "unreachable"
  | .pipeBackward, _, _ => .error "unreachable"

/-! Pattern matching (interpreter.rs match_pattern, lines 614-647); returns the
extended environment on success, none when the pattern does not match. -/

mutual

def match_pattern : Pattern → Value → Env → Option Env
  | .wildcard, _, env => some env
  | .var name, v, env => some ((name, v) :: env)
  | .num a, .num b, env => if a = b then some env else none
  | .bool a, .bool b, env => if a = b then some env else none
  | .str a, .str b, env => if a = b then some env else none
  | .list pats, .list vals, env =>
    if pats.length = vals.length then matchPatternList pats vals env else none
  | .cons hd tl, .list vals, env =>
    match vals with
    | [] => none
    | v :: vs =>
      match match_pattern hd v env with
      | none => none
      | some env1 => match_pattern tl (.list vs) env1
  | _, _, _ => none

def matchPatternList : List Pattern → List Value → Env → Option Env
  | [], _, env => some env
  | _ :: _, [], _ => none
  | p :: ps, v :: vs, env =>
    match match_pattern p v env with
    | none => none
    | some env1 => matchPatternList ps vs env1

end

/-- Inclusive range start..=end of Rust, as a list (empty when start > end). -/
def rangeVals (s e : Int) : List Int :=
  if s ≤ e then (List.range ((e - s).toNat + 1)).map (fun i => s + i) else []

/-- Helper shared by sort/sum/product: every element must be a Number
(mirrors the collect::<Result<Vec<i64>>> loops). -/
def asNums (msg : String) : List Value → Except String (List Int)
  | [] => .ok []
  | .num n :: rest =>
    match asNums msg rest with
    | .error e => .error e
    | .ok ns => .ok (n :: ns)
  | _ :: _ => .error msg

/-- concat: flatten one level (interpreter.rs lines 459-469). -/
def flattenVals : List Value → Except String (List Value)
  | [] => .ok []
  | .list inner :: rest =>
    match flattenVals rest with
    | .error e => .error e
    | .ok vs => .ok (inner ++ vs)
  | _ :: _ => .error "concat: must be a list of lists"

/-- Ascending insertion sort on Int; extensionally equal to Rust's
Vec::sort on i64 (sorted ascending). -/
def insertSorted (x : Int) : List Int → List Int
  | [] => [x]
  | y :: ys => if x ≤ y then x :: y :: ys else y :: insertSorted x ys

def sortInts : List Int → List Int
  | [] => []
  | x :: xs => insertSorted x (sortInts xs)

def MAX_CALL_DEPTH : Nat := 10000

/-- One interpreter step result: the Except outcome plus the value of the
call_depth counter at the point the Rust function returns.  `none` means the
model's fuel ran out. -/
abbrev Res := Option (Except String Value × Nat)

/-! ### The interpreter (interpreter.rs lines 57-647).

The Rust recursion is unbounded, so the model carries a fuel parameter:
`evalPair n` yields the pair (eval, eval_app) at fuel level n, built by
structural recursion on n; level n+1 dispatches sub-evaluations to level n
exactly where the Rust code makes a nested `eval` entry, so fuel mirrors the
nesting of evaluator entries.  A `none` result means the fuel budget ran out
(a model artifact, not a program outcome).  Each `*B` definition is the body
of the corresponding Rust function with its recursive calls abstracted; the
second Nat argument is the value of the mutable `self.call_depth` counter at
that point, threaded in and out of every call, including the early-return
(`?`) paths that skip the decrement. -/

abbrev EvalFn := Expr → Env → Nat → Res

abbrev EvalAppFn := Expr → List Expr → Env → Nat → Res

/-- The `?` operator on a fallible intermediate result: fuel exhaustion and
errors propagate unchanged (with the counter at the point of the error),
successes continue. -/
def andThenR {α β : Type} (r : Option (Except String α × Nat))
    (k : α → Nat → Option (Except String β × Nat)) :
    Option (Except String β × Nat) :=
  match r with
  | none => none
  | some (.error e, c) => some (.error e, c)
  | some (.ok v, c) => k v c

/-- The trailing `self.call_depth -= 1` of eval, applied to the result of a
match arm (successes and errors alike). -/
def decr (r : Res) : Res :=
  match r with
  | none => none
  | some (r2, c) => some (r2, c - 1)

/-- `value_to_expr(...)?` inside the builtin loops. -/
def withExpr {β : Type} (v : Value) (c : Nat)
    (k : Expr → Option (Except String β × Nat)) :
    Option (Except String β × Nat) :=
  match value_to_expr v with
  | .error e => some (.error e, c)
  | .ok ex => k ex

/-- Interpreter::force (lines 141-146). -/
def forceB (ev : EvalFn) : Value → Nat → Res
  | .thunk e te, d => ev e te d
  | v, d => some (.ok v, d)

/-- Element-wise evaluation of a list literal (lines 82-87). -/
def evalListElemsB (ev : EvalFn) : List Expr → Env → Nat →
    Option (Except String (List Value) × Nat)
  | [], _, c => some (.ok [], c)
  | e :: es, env, c =>
    andThenR (ev e env c) fun v c1 =>
      andThenR (evalListElemsB ev es env c1) fun vs c2 =>
        some (.ok (v :: vs), c2)

/-- The params-zip-args binding loops of eval_app (lines 158-175): arguments
are evaluated in the caller environment, bindings inserted into the closure
environment; zip truncates to the shorter list. -/
def bindArgsB (ev : EvalFn) : List String → List Expr → Env → Env → Nat →
    Option (Except String Env × Nat)
  | [], _, _, acc, c => some (.ok acc, c)
  | _ :: _, [], _, acc, c => some (.ok acc, c)
  | p :: ps, a :: as_, env, acc, c =>
    andThenR (ev a env c) fun v c1 =>
      bindArgsB ev ps as_ env ((p, v) :: acc) c1

/-- The per-item loop of the map builtin (lines 210-217). -/
def mapLoopB (evApp : EvalAppFn) : Value → List Value → Env → Nat →
    Option (Except String (List Value) × Nat)
  | _, [], _, c => some (.ok [], c)
  | f, item :: rest, env, c =>
    withExpr item c fun itemExpr =>
      withExpr f c fun fExpr =>
        andThenR (evApp fExpr [itemExpr] env c) fun v c1 =>
          andThenR (mapLoopB evApp f rest env c1) fun vs c2 =>
            some (.ok (v :: vs), c2)

/-- The per-item loop of the filter builtin (lines 230-241). -/
def filterLoopB (evApp : EvalAppFn) : Value → List Value → Env → Nat →
    Option (Except String (List Value) × Nat)
  | _, [], _, c => some (.ok [], c)
  | f, item :: rest, env, c =>
    withExpr item c fun itemExpr =>
      withExpr f c fun fExpr =>
        andThenR (evApp fExpr [itemExpr] env c) fun pred c1 =>
          match pred with
          | .bool true =>
            andThenR (filterLoopB evApp f rest env c1) fun vs c2 =>
              some (.ok (item :: vs), c2)
          | .bool false => filterLoopB evApp f rest env c1
          | _ => some (.error "filter: predicate must return bool", c1)

/-- The accumulator loop of fold/foldl (lines 254-264). -/
def foldLoopB (evApp : EvalAppFn) : Value → Value → List Value → Env → Nat → Res
  | _, acc, [], _, c => some (.ok acc, c)
  | f, acc, item :: rest, env, c =>
    withExpr acc c fun accExpr =>
      withExpr item c fun itemExpr =>
        withExpr f c fun fExpr =>
          andThenR (evApp fExpr [accExpr, itemExpr] env c) fun acc2 c1 =>
            foldLoopB evApp f acc2 rest env c1

/-- The accumulator loop of foldr (lines 274-284), applied to the reversed
item list, with the item before the accumulator. -/
def foldrLoopB (evApp : EvalAppFn) : Value → Value → List Value → Env → Nat → Res
  | _, acc, [], _, c => some (.ok acc, c)
  | f, acc, item :: rest, env, c =>
    withExpr item c fun itemExpr =>
      withExpr acc c fun accExpr =>
        withExpr f c fun fExpr =>
          andThenR (evApp fExpr [itemExpr, accExpr] env c) fun acc2 c1 =>
            foldrLoopB evApp f acc2 rest env c1

/-- Interpreter::eval_builtin (lines 200-487): `ev` evaluates the argument
expressions, `evApp` performs the per-item applications inside the loops.
Arity checks precede any argument evaluation. -/
def evalBuiltinB (ev : EvalFn) (evApp : EvalAppFn)
    (name : String) (args : List Expr) (env : Env) (c : Nat) : Res :=
  if name = "map" then
    match args with
    | a0 :: a1 :: _ =>
      andThenR (ev a0 env c) fun f c1 =>
        andThenR (ev a1 env c1) fun lv c2 =>
          match lv with
          | .list items =>
            andThenR (mapLoopB evApp f items env c2) fun vs c3 =>
              some (.ok (.list vs), c3)
          | _ => some (.error "map: second argument must be a list", c2)
    | _ => some (.error "map requires 2 arguments", c)
  else if name = "filter" then
    match args with
    | a0 :: a1 :: _ =>
      andThenR (ev a0 env c) fun f c1 =>
        andThenR (ev a1 env c1) fun lv c2 =>
          match lv with
          | .list items =>
            andThenR (filterLoopB evApp f items env c2) fun vs c3 =>
              some (.ok (.list vs), c3)
          | _ => some (.error "filter: second argument must be a list", c2)
    | _ => some (.error "filter requires 2 arguments", c)
  else if name = "fold" ∨ name = "foldl" then
    match args with
    | a0 :: a1 :: a2 :: _ =>
      andThenR (ev a0 env c) fun f c1 =>
        andThenR (ev a1 env c1) fun acc0 c2 =>
          andThenR (ev a2 env c2) fun lv c3 =>
            match lv with
            | .list items => foldLoopB evApp f acc0 items env c3
            | _ => some (.error (name ++ ": third argument must be a list"), c3)
    | _ => some (.error (name ++ " requires 3 arguments"), c)
  else if name = "foldr" then
    match args with
    | a0 :: a1 :: a2 :: _ =>
      andThenR (ev a0 env c) fun f c1 =>
        andThenR (ev a1 env c1) fun acc0 c2 =>
          andThenR (ev a2 env c2) fun lv c3 =>
            match lv with
            | .list items => foldrLoopB evApp f acc0 items.reverse env c3
            | _ => some (.error "foldr: third argument must be a list", c3)
    | _ => some (.error "foldr requires 3 arguments", c)
  else if name = "zip" then
    match args with
    | a0 :: a1 :: _ =>
      andThenR (ev a0 env c) fun l1 c1 =>
        andThenR (ev a1 env c1) fun l2 c2 =>
          match l1, l2 with
          | .list items1, .list items2 =>
            some (.ok (.list (List.zipWith (fun a b => Value.list [a, b]) items1 items2)), c2)
          | _, _ => some (.error "zip: both arguments must be lists", c2)
    | _ => some (.error "zip requires 2 arguments", c)
  else if name = "take" then
    match args with
    | a0 :: a1 :: _ =>
      andThenR (ev a0 env c) fun nv c1 =>
        andThenR (ev a1 env c1) fun lv c2 =>
          match nv, lv with
          | .num k, .list items => some (.ok (.list (items.take (max k 0).toNat)), c2)
          | _, _ => some (.error "take: invalid arguments", c2)
    | _ => some (.error "take requires 2 arguments", c)
  else if name = "drop" then
    match args with
    | a0 :: a1 :: _ =>
      andThenR (ev a0 env c) fun nv c1 =>
        andThenR (ev a1 env c1) fun lv c2 =>
          match nv, lv with
          | .num k, .list items => some (.ok (.list (items.drop (max k 0).toNat)), c2)
          | _, _ => some (.error "drop: invalid arguments", c2)
    | _ => some (.error "drop requires 2 arguments", c)
  else if name = "reverse" then
    match args with
    | a0 :: _ =>
      andThenR (ev a0 env c) fun lv c1 =>
        match lv with
        | .list items => some (.ok (.list items.reverse), c1)
        | _ => some (.error "reverse: argument must be a list", c1)
    | _ => some (.error "reverse requires 1 argument", c)
  else if name = "sort" then
    match args with
    | a0 :: _ =>
      andThenR (ev a0 env c) fun lv c1 =>
        match lv with
        | .list items =>
          match asNums "sort: list must contain only numbers" items with
          | .error e => some (.error e, c1)
          | .ok ns => some (.ok (.list ((sortInts ns).map Value.num)), c1)
        | _ => some (.error "sort: argument must be a list", c1)
    | _ => some (.error "sort requires 1 argument", c)
  else if name = "length" then
    match args with
    | a0 :: _ =>
      andThenR (ev a0 env c) fun lv c1 =>
        match lv with
        | .list items => some (.ok (.num items.length), c1)
        | _ => some (.error "length: argument must be a list", c1)
    | _ => some (.error "length requires 1 argument", c)
  else if name = "head" then
    match args with
    | a0 :: _ =>
      andThenR (ev a0 env c) fun lv c1 =>
        match lv with
        | .list items =>
          match items with
          | [] => some (.error "head: empty list", c1)
          | v :: _ => some (.ok v, c1)
        | _ => some (.error "head: argument must be a list", c1)
    | _ => some (.error "head requires 1 argument", c)
  else if name = "tail" then
    match args with
    | a0 :: _ =>
      andThenR (ev a0 env c) fun lv c1 =>
        match lv with
        | .list items =>
          match items with
          | [] => some (.error "tail: empty list", c1)
          | _ :: rest => some (.ok (.list rest), c1)
        | _ => some (.error "tail: argument must be a list", c1)
    | _ => some (.error "tail requires 1 argument", c)
  else if name = "sum" then
    match args with
    | a0 :: _ =>
      andThenR (ev a0 env c) fun lv c1 =>
        match lv with
        | .list items =>
          match asNums "sum: list must contain only numbers" items with
          | .error e => some (.error e, c1)
          | .ok ns => some (.ok (.num (ns.foldr (· + ·) 0)), c1)
        | _ => some (.error "sum: argument must be a list", c1)
    | _ => some (.error "sum requires 1 argument", c)
  else if name = "product" then
    match args with
    | a0 :: _ =>
      andThenR (ev a0 env c) fun lv c1 =>
        match lv with
        | .list items =>
          match asNums "product: list must contain only numbers" items with
          | .error e => some (.error e, c1)
          | .ok ns => some (.ok (.num (ns.foldr (· * ·) 1)), c1)
        | _ => some (.error "product: argument must be a list", c1)
    | _ => some (.error "product requires 1 argument", c)
  else if name = "concat" then
    match args with
    | a0 :: _ =>
      andThenR (ev a0 env c) fun lv c1 =>
        match lv with
        | .list items =>
          match flattenVals items with
          | .error e => some (.error e, c1)
          | .ok vs => some (.ok (.list vs), c1)
        | _ => some (.error "concat: argument must be a list", c1)
    | _ => some (.error "concat requires 1 argument", c)
  else if name = "elem" then
    match args with
    | a0 :: a1 :: _ =>
      andThenR (ev a0 env c) fun item c1 =>
        andThenR (ev a1 env c1) fun lv c2 =>
          match lv with
          | .list items => some (.ok (.bool (items.any (fun v => valueEq v item))), c2)
          | _ => some (.error "elem: second argument must be a list", c2)
    | _ => some (.error "elem requires 2 arguments", c)
  else
    some (.error ("Unknown builtin: " ++ name), c)

/-- Interpreter::eval_app (lines 148-198): `ev` evaluates the function
expression, the arguments and the closure body; `evAppPrev` performs the
recursive over-application step and the applications inside builtin loops. -/
def evalAppB (ev : EvalFn) (evAppPrev : EvalAppFn)
    (fexpr : Expr) (args : List Expr) (env : Env) (d : Nat) : Res :=
  andThenR (ev fexpr env d) fun fv c =>
    match fv with
    | .function params body fenv =>
      if args.length < params.length then
        -- partial application
        andThenR (bindArgsB ev params args env fenv c) fun newEnv c2 =>
          some (.ok (.function (params.drop args.length) body newEnv), c2)
      else if args.length = params.length then
        -- full application
        andThenR (bindArgsB ev params args env fenv c) fun newEnv c2 =>
          ev body newEnv c2
      else
        -- over-application: remaining args applied to "_result" in a
        -- singleton environment
        andThenR (bindArgsB ev params args env fenv c) fun newEnv c2 =>
          andThenR (ev body newEnv c2) fun result c3 =>
            if (args.drop params.length).isEmpty then some (.ok result, c3)
            else
              evAppPrev (.var "_result") (args.drop params.length)
                [("_result", result)] c3
    | .builtin name => evalBuiltinB ev evAppPrev name args env c
    | _ => some (.error "Cannot call non-function", c)

/-- Interpreter::eval_binop (lines 489-562). -/
def evalBinopB (ev : EvalFn) (evApp : EvalAppFn) :
    BinOpK → Expr → Expr → Env → Nat → Res
  | .pipeForward, l, r, env, c =>
    -- left >> right means right(left)
    andThenR (ev l env c) fun lv c1 =>
      withExpr lv c1 fun le => evApp r [le] env c1
  | .pipeBackward, l, r, env, c =>
    -- left << right means left(right)
    andThenR (ev r env c) fun rv c1 =>
      withExpr rv c1 fun re => evApp l [re] env c1
  | op, l, r, env, c =>
    andThenR (ev l env c) fun lv c1 =>
      andThenR (ev r env c1) fun rv c2 =>
        some (applyBinOp op lv rv, c2)

/-- The guard loop of a list comprehension (lines 576-587). -/
def guardLoopB (ev : EvalFn) : List Expr → Env → Nat →
    Option (Except String Bool × Nat)
  | [], _, c => some (.ok true, c)
  | g :: gs, env, c =>
    andThenR (ev g env c) fun v c1 =>
      match v with
      | .bool false => some (.ok false, c1)
      | .bool true => guardLoopB ev gs env c1
      | _ => some (.error "Guard must be boolean", c1)

/-- The per-item loop of a list comprehension (lines 571-593). -/
def compLoopB (ev : EvalFn) : Expr → String → List Expr → List Value → Env → Nat →
    Option (Except String (List Value) × Nat)
  | _, _, _, [], _, c => some (.ok [], c)
  | expr, var, guards, item :: rest, env, c =>
    andThenR (guardLoopB ev guards ((var, item) :: env) c) fun passes c1 =>
      match passes with
      | false => compLoopB ev expr var guards rest env c1
      | true =>
        andThenR (ev expr ((var, item) :: env) c1) fun v c2 =>
          andThenR (compLoopB ev expr var guards rest env c2) fun vs c3 =>
            some (.ok (v :: vs), c3)

/-- Interpreter::eval_list_comp (lines 564-599). -/
def evalListCompB (ev : EvalFn)
    (expr : Expr) (var : String) (listExpr : Expr) (guards : List Expr)
    (env : Env) (c : Nat) : Res :=
  andThenR (ev listExpr env c) fun lv c1 =>
    match lv with
    | .list items =>
      andThenR (compLoopB ev expr var guards items env c1) fun vs c2 =>
        some (.ok (.list vs), c2)
    | _ => some (.error "List comprehension requires a list", c1)

/-- The arm loop of eval_match (lines 604-611). -/
def armLoopB (ev : EvalFn) : List (Pattern × Expr) → Value → Env → Nat → Res
  | [], _, _, c => some (.error "No pattern matched", c)
  | (pat, body) :: rest, v, env, c =>
    match match_pattern pat v env with
    | some newEnv => ev body newEnv c
    | none => armLoopB ev rest v env c

/-- Interpreter::eval_match (lines 601-612). -/
def evalMatchB (ev : EvalFn)
    (scrut : Expr) (arms : List (Pattern × Expr)) (env : Env) (c : Nat) : Res :=
  andThenR (ev scrut env c) fun v c1 => armLoopB ev arms v env c1

/-- Interpreter::eval (lines 74-139): `ev`/`evApp` are the next-lower fuel
level, used for every nested evaluator entry.  Early `?` returns (list
elements, if-condition, negation operand) skip the decrement; all other arms
end in `decr`. -/
def evalBodyB (ev : EvalFn) (evApp : EvalAppFn)
    (e : Expr) (env : Env) (d : Nat) : Res :=
  if d > MAX_CALL_DEPTH then some (.error "Maximum recursion depth exceeded", d) else
  match e with
  | .num k => some (.ok (.num k), (d+1) - 1)
  | .bool b => some (.ok (.bool b), (d+1) - 1)
  | .str s => some (.ok (.str s), (d+1) - 1)
  | .list items =>
    -- `values?` early-returns on an element error, skipping the decrement
    andThenR (evalListElemsB ev items env (d+1)) fun vs c =>
      some (.ok (.list vs), c - 1)
  | .var name =>
    match envGet name env with
    | none => some (.error ("Undefined variable: " ++ name), (d+1) - 1)
    | some v => decr (forceB ev v (d+1))
  | .lambda params body => some (.ok (.function params body env), (d+1) - 1)
  | .app f args => decr (evApp f args env (d+1))
  | .letE name value body =>
    -- the Thunk captures the environment before the binding is inserted
    decr (ev body ((name, .thunk value env) :: env) (d+1))
  | .ifE cond thenB elseB =>
    -- `self.eval(cond, env)?` early-returns on error, skipping the decrement
    andThenR (ev cond env (d+1)) fun v c =>
      match v with
      | .bool true => decr (ev thenB env c)
      | .bool false => decr (ev elseB env c)
      | _ => some (.error "Condition must be a boolean", c - 1)
  | .binop op l r => decr (evalBinopB ev evApp op l r env (d+1))
  | .unop .neg e1 =>
    -- `self.eval(expr, env)?` early-returns on error, skipping the decrement
    andThenR (ev e1 env (d+1)) fun v c =>
      match v with
      | .num k => some (.ok (.num (-k)), c - 1)
      | _ => some (.error "Cannot negate non-number", c - 1)
  | .range s e2 => some (.ok (.list ((rangeVals s e2).map Value.num)), (d+1) - 1)
  | .listComp expr var lst guards =>
    decr (evalListCompB ev expr var lst guards env (d+1))
  | .matchE scrut arms => decr (evalMatchB ev scrut arms env (d+1))

/-- The (eval, eval_app) pair at each fuel level. -/
def evalPair : Nat → EvalFn × EvalAppFn
  | 0 => (fun _ _ _ => none, fun _ _ _ _ => none)
  | n+1 =>
    let p := evalPair n
    let e1 : EvalFn := evalBodyB p.1 p.2
    (e1, evalAppB e1 p.2)

def eval (n : Nat) : EvalFn := (evalPair n).1

def eval_app (n : Nat) : EvalAppFn := (evalPair n).2

def eval_builtin (n : Nat) : String → List Expr → Env → Nat → Res :=
  evalBuiltinB (eval n) (eval_app (n - 1))

def eval_binop (n : Nat) : BinOpK → Expr → Expr → Env → Nat → Res :=
  evalBinopB (eval n) (eval_app n)

def builtinNames : List String :=
  ["map", "filter", "fold", "foldl", "foldr",
   "zip", "take", "drop", "reverse", "sort",
   "length", "head", "tail", "sum", "product",
   "concat", "elem"]

def get_builtin_env : Env := builtinNames.map (fun name => (name, .builtin name))

/-! ### Tokenizer and parser.

Modelled from the spec: the pest grammar file (src/lang/grammar.pest) is not
among the sources; only the pair-to-AST mapping (src/lang/parser.rs) is.  The
lexical rules and grammar below follow spec section 4.1: identifiers
[A-Za-z_][A-Za-z0-9_]*, digit-sequence integer literals (unary minus is an
expression prefix), double-quoted strings without escapes, comments from --
to end of line, and the layered expression grammar with ordered choice
(range before plain number, list before list comprehension). -/

inductive Token where
  | num (n : Nat)
  | ident (s : String)
  | strLit (s : String)
  | boolLit (b : Bool)
  | kwLet | kwIn | kwIf | kwThen | kwElse | kwMatch | kwWith
  | lparen | rparen | lbracket | rbracket | comma | pipe
  | backslash | arrow | larrow | dotdot | equals
  | opGtGt | opLtLt | opEqEq | opNeq | opLe | opGe | opLt | opGt
  | opAndAnd | opOrOr | opColonColon | opPlusPlus | opPlus | opMinus
  | opStar | opSlash | opPercent | opCaret
deriving DecidableEq, Repr

def isIdentStart (c : Char) : Bool := c.isAlpha || c = '_'

def isIdentChar (c : Char) : Bool := c.isAlphanum || c = '_'

def digitsToNat (ds : List Char) : Nat :=
  ds.foldl (fun a c => a * 10 + (c.toNat - 48)) 0

/-- Keywords and boolean literals take precedence over plain identifiers. -/
def identToken (s : String) : Token :=
  if s = "let" then .kwLet
  else if s = "in" then .kwIn
  else if s = "if" then .kwIf
  else if s = "then" then .kwThen
  else if s = "else" then .kwElse
  else if s = "match" then .kwMatch
  else if s = "with" then .kwWith
  else if s = "true" then .boolLit true
  else if s = "false" then .boolLit false
  else .ident s

def twoCharTok (c1 c2 : Char) : Option Token :=
  if c1 = '-' ∧ c2 = '>' then some .arrow
  else if c1 = '<' ∧ c2 = '-' then some .larrow
  else if c1 = '.' ∧ c2 = '.' then some .dotdot
  else if c1 = '>' ∧ c2 = '>' then some .opGtGt
  else if c1 = '<' ∧ c2 = '<' then some .opLtLt
  else if c1 = '=' ∧ c2 = '=' then some .opEqEq
  else if c1 = '!' ∧ c2 = '=' then some .opNeq
  else if c1 = '<' ∧ c2 = '=' then some .opLe
  else if c1 = '>' ∧ c2 = '=' then some .opGe
  else if c1 = '&' ∧ c2 = '&' then some .opAndAnd
  else if c1 = '|' ∧ c2 = '|' then some .opOrOr
  else if c1 = ':' ∧ c2 = ':' then some .opColonColon
  else if c1 = '+' ∧ c2 = '+' then some .opPlusPlus
  else none

def oneCharTok (c : Char) : Option Token :=
  if c = '(' then some .lparen
  else if c = ')' then some .rparen
  else if c = '[' then some .lbracket
  else if c = ']' then some .rbracket
  else if c = ',' then some .comma
  else if c = '|' then some .pipe
  else if c = '\\' then some .backslash
  else if c = '=' then some .equals
  else if c = '>' then some .opGt
  else if c = '<' then some .opLt
  else if c = '+' then some .opPlus
  else if c = '-' then some .opMinus
  else if c = '*' then some .opStar
  else if c = '/' then some .opSlash
  else if c = '%' then some .opPercent
  else if c = '^' then some .opCaret
  else none

def notQuote (ch : Char) : Bool := ch ≠ '"'

def notNewline (ch : Char) : Bool := ch ≠ '\n'

def tokenizeAux : Nat → List Char → Except String (List Token)
  | 0, _ => .error "Tokenizer fuel exhausted"
  | _+1, [] => .ok []
  | fuel+1, c :: cs =>
    if c.isWhitespace then tokenizeAux fuel cs
    else if c.isDigit then
      match tokenizeAux fuel (cs.dropWhile Char.isDigit) with
      | .error e => .error e
      | .ok ts => .ok (.num (digitsToNat (c :: cs.takeWhile Char.isDigit)) :: ts)
    else if isIdentStart c then
      match tokenizeAux fuel (cs.dropWhile isIdentChar) with
      | .error e => .error e
      | .ok ts => .ok (identToken (String.mk (c :: cs.takeWhile isIdentChar)) :: ts)
    else if c = '"' then
      match cs.dropWhile notQuote with
      | '"' :: rest2 =>
        match tokenizeAux fuel rest2 with
        | .error e => .error e
        | .ok ts => .ok (.strLit (String.mk (cs.takeWhile notQuote)) :: ts)
      | _ => .error "Unterminated string literal"
    else if c = '-' ∧ cs.head? = some '-' then
      tokenizeAux fuel (cs.dropWhile notNewline)
    else
      match cs with
      | c2 :: rest =>
        match twoCharTok c c2 with
        | some t =>
          match tokenizeAux fuel rest with
          | .error e => .error e
          | .ok ts => .ok (t :: ts)
        | none =>
          match oneCharTok c with
          | some t =>
            match tokenizeAux fuel (c2 :: rest) with
            | .error e => .error e
            | .ok ts => .ok (t :: ts)
          | none => .error ("Unexpected character: " ++ String.mk [c])
      | [] =>
        match oneCharTok c with
        | some t => .ok [t]
        | none => .error ("Unexpected character: " ++ String.mk [c])

def tokenize (s : String) : Except String (List Token) :=
  tokenizeAux (s.toList.length + 1) s.toList

/-! Recursive-descent parser over the token stream, one function per grammar
level (spec section 4.1), with a fuel parameter for the recursive grammar.
Application is juxtaposition collecting all following primaries into a single
App node (parser.rs parse_app); single-operand levels return the operand
unchanged. -/

def cmpOpOf : Token → Option BinOpK
  | .opEqEq => some .eq
  | .opNeq => some .neq
  | .opLt => some .lt
  | .opGt => some .gt
  | .opLe => some .lte
  | .opGe => some .gte
  | _ => none

def startsPrimary : Token → Bool
  | .num _ => true
  | .boolLit _ => true
  | .strLit _ => true
  | .ident _ => true
  | .lbracket => true
  | .lparen => true
  | _ => false

abbrev PRes (α : Type) := Except String (α × List Token)

/-- Parameter list of a lambda: ident+ followed by the arrow. -/
def parseParams : List Token → PRes (List String)
  | .ident s :: rest =>
    match parseParams rest with
    | .ok (ps, ts) => .ok (s :: ps, ts)
    | .error _ =>
      match rest with
      | .arrow :: ts => .ok ([s], ts)
      | _ => .error "Expected -> after lambda parameters"
  | _ => .error "Expected lambda parameter"

mutual

def parseExpr : Nat → List Token → PRes Expr
  | 0, _ => .error "Parse fuel exhausted"
  | n+1, ts =>
    match ts with
    | .kwLet :: .ident name :: .equals :: rest =>
      match parseExpr n rest with
      | .error e => .error e
      | .ok (value, ts1) =>
        match ts1 with
        | .kwIn :: ts2 =>
          match parseExpr n ts2 with
          | .error e => .error e
          | .ok (body, ts3) => .ok (.letE name value body, ts3)
        | _ => .error "Expected in"
    | .kwLet :: _ => .error "Expected identifier = after let"
    | .backslash :: rest =>
      match parseParams rest with
      | .error e => .error e
      | .ok (params, ts1) =>
        match parseExpr n ts1 with
        | .error e => .error e
        | .ok (body, ts2) => .ok (.lambda params body, ts2)
    | .kwMatch :: rest =>
      match parseExpr n rest with
      | .error e => .error e
      | .ok (scrut, ts1) =>
        match ts1 with
        | .kwWith :: ts2 =>
          match parseArm n ts2 with
          | .error e => .error e
          | .ok (arm0, ts3) =>
            match parseArms n ts3 with
            | .error e => .error e
            | .ok (arms, ts4) => .ok (.matchE scrut (arm0 :: arms), ts4)
        | _ => .error "Expected with"
    | .kwIf :: rest =>
      match parseExpr n rest with
      | .error e => .error e
      | .ok (cond, ts1) =>
        match ts1 with
        | .kwThen :: ts2 =>
          match parseExpr n ts2 with
          | .error e => .error e
          | .ok (thenB, ts3) =>
            match ts3 with
            | .kwElse :: ts4 =>
              match parseExpr n ts4 with
              | .error e => .error e
              | .ok (elseB, ts5) => .ok (.ifE cond thenB elseB, ts5)
            | _ => .error "Expected else"
        | _ => .error "Expected then"
    | _ => parsePipe n ts

def parseArm : Nat → List Token → PRes (Pattern × Expr)
  | 0, _ => .error "Parse fuel exhausted"
  | n+1, ts =>
    match parsePattern n ts with
    | .error e => .error e
    | .ok (pat, ts1) =>
      match ts1 with
      | .arrow :: ts2 =>
        match parseExpr n ts2 with
        | .error e => .error e
        | .ok (body, ts3) => .ok ((pat, body), ts3)
      | _ => .error "Expected -> in match arm"

def parseArms : Nat → List Token → PRes (List (Pattern × Expr))
  | 0, _ => .error "Parse fuel exhausted"
  | n+1, ts =>
    match ts with
    | .pipe :: rest =>
      match parseArm n rest with
      | .error e => .error e
      | .ok (arm, ts1) =>
        match parseArms n ts1 with
        | .error e => .error e
        | .ok (arms, ts2) => .ok (arm :: arms, ts2)
    | _ => .ok ([], ts)

def parsePattern : Nat → List Token → PRes Pattern
  | 0, _ => .error "Parse fuel exhausted"
  | n+1, ts =>
    match ts with
    | .ident s :: .opColonColon :: rest =>
      match parsePattern n rest with
      | .error e => .error e
      | .ok (tl, ts1) => .ok (.cons (.var s) tl, ts1)
    | .ident s :: rest =>
      if s = "_" then .ok (.wildcard, rest) else .ok (.var s, rest)
    | .num k :: rest => .ok (.num (Int.ofNat k), rest)
    | .boolLit b :: rest => .ok (.bool b, rest)
    | .strLit s :: rest => .ok (.str s, rest)
    | .lbracket :: .rbracket :: rest => .ok (.list [], rest)
    | .lbracket :: rest =>
      match parsePattern n rest with
      | .error e => .error e
      | .ok (p0, ts1) =>
        match parsePatternList n ts1 with
        | .error e => .error e
        | .ok (ps, ts2) => .ok (.list (p0 :: ps), ts2)
    | _ => .error "Invalid pattern"

def parsePatternList : Nat → List Token → PRes (List Pattern)
  | 0, _ => .error "Parse fuel exhausted"
  | n+1, ts =>
    match ts with
    | .rbracket :: rest => .ok ([], rest)
    | .comma :: rest =>
      match parsePattern n rest with
      | .error e => .error e
      | .ok (p, ts1) =>
        match parsePatternList n ts1 with
        | .error e => .error e
        | .ok (ps, ts2) => .ok (p :: ps, ts2)
    | _ => .error "Expected , or ] in list pattern"

def parsePipe : Nat → List Token → PRes Expr
  | 0, _ => .error "Parse fuel exhausted"
  | n+1, ts =>
    match parseLogic n ts with
    | .error e => .error e
    | .ok (l, ts1) => parsePipeLoop n l ts1

def parsePipeLoop : Nat → Expr → List Token → PRes Expr
  | 0, _, _ => .error "Parse fuel exhausted"
  | n+1, acc, ts =>
    match ts with
    | .opGtGt :: rest =>
      match parseLogic n rest with
      | .error e => .error e
      | .ok (r, ts1) => parsePipeLoop n (.binop .pipeForward acc r) ts1
    | .opLtLt :: rest =>
      match parseLogic n rest with
      | .error e => .error e
      | .ok (r, ts1) => parsePipeLoop n (.binop .pipeBackward acc r) ts1
    | _ => .ok (acc, ts)

def parseLogic : Nat → List Token → PRes Expr
  | 0, _ => .error "Parse fuel exhausted"
  | n+1, ts =>
    match parseComp n ts with
    | .error e => .error e
    | .ok (l, ts1) => parseLogicLoop n l ts1

def parseLogicLoop : Nat → Expr → List Token → PRes Expr
  | 0, _, _ => .error "Parse fuel exhausted"
  | n+1, acc, ts =>
    match ts with
    | .opAndAnd :: rest =>
      match parseComp n rest with
      | .error e => .error e
      | .ok (r, ts1) => parseLogicLoop n (.binop .and acc r) ts1
    | .opOrOr :: rest =>
      match parseComp n rest with
      | .error e => .error e
      | .ok (r, ts1) => parseLogicLoop n (.binop .or acc r) ts1
    | _ => .ok (acc, ts)

def parseComp : Nat → List Token → PRes Expr
  | 0, _ => .error "Parse fuel exhausted"
  | n+1, ts =>
    match parseCons n ts with
    | .error e => .error e
    | .ok (l, ts1) =>
      match ts1 with
      | t :: rest =>
        match cmpOpOf t with
        | some op =>
          match parseCons n rest with
          | .error e => .error e
          | .ok (r, ts2) => .ok (.binop op l r, ts2)
        | none => .ok (l, ts1)
      | [] => .ok (l, ts1)

def parseCons : Nat → List Token → PRes Expr
  | 0, _ => .error "Parse fuel exhausted"
  | n+1, ts =>
    match parseConcat n ts with
    | .error e => .error e
    | .ok (l, ts1) =>
      match ts1 with
      | .opColonColon :: rest =>
        match parseCons n rest with
        | .error e => .error e
        | .ok (r, ts2) => .ok (.binop .cons l r, ts2)
      | _ => .ok (l, ts1)

def parseConcat : Nat → List Token → PRes Expr
  | 0, _ => .error "Parse fuel exhausted"
  | n+1, ts =>
    match parseAdd n ts with
    | .error e => .error e
    | .ok (l, ts1) =>
      match ts1 with
      | .opPlusPlus :: rest =>
        match parseConcat n rest with
        | .error e => .error e
        | .ok (r, ts2) => .ok (.binop .concat l r, ts2)
      | _ => .ok (l, ts1)

def parseAdd : Nat → List Token → PRes Expr
  | 0, _ => .error "Parse fuel exhausted"
  | n+1, ts =>
    match parseMul n ts with
    | .error e => .error e
    | .ok (l, ts1) => parseAddLoop n l ts1

def parseAddLoop : Nat → Expr → List Token → PRes Expr
  | 0, _, _ => .error "Parse fuel exhausted"
  | n+1, acc, ts =>
    match ts with
    | .opPlus :: rest =>
      match parseMul n rest with
      | .error e => .error e
      | .ok (r, ts1) => parseAddLoop n (.binop .add acc r) ts1
    | .opMinus :: rest =>
      match parseMul n rest with
      | .error e => .error e
      | .ok (r, ts1) => parseAddLoop n (.binop .sub acc r) ts1
    | _ => .ok (acc, ts)

def parseMul : Nat → List Token → PRes Expr
  | 0, _ => .error "Parse fuel exhausted"
  | n+1, ts =>
    match parsePow n ts with
    | .error e => .error e
    | .ok (l, ts1) => parseMulLoop n l ts1

def parseMulLoop : Nat → Expr → List Token → PRes Expr
  | 0, _, _ => .error "Parse fuel exhausted"
  | n+1, acc, ts =>
    match ts with
    | .opStar :: rest =>
      match parsePow n rest with
      | .error e => .error e
      | .ok (r, ts1) => parseMulLoop n (.binop .mul acc r) ts1
    | .opSlash :: rest =>
      match parsePow n rest with
      | .error e => .error e
      | .ok (r, ts1) => parseMulLoop n (.binop .div acc r) ts1
    | .opPercent :: rest =>
      match parsePow n rest with
      | .error e => .error e
      | .ok (r, ts1) => parseMulLoop n (.binop .mod acc r) ts1
    | _ => .ok (acc, ts)

def parsePow : Nat → List Token → PRes Expr
  | 0, _ => .error "Parse fuel exhausted"
  | n+1, ts =>
    match parseUnary n ts with
    | .error e => .error e
    | .ok (l, ts1) =>
      match ts1 with
      | .opCaret :: rest =>
        match parsePow n rest with
        | .error e => .error e
        | .ok (r, ts2) => .ok (.binop .pow l r, ts2)
      | _ => .ok (l, ts1)

def parseUnary : Nat → List Token → PRes Expr
  | 0, _ => .error "Parse fuel exhausted"
  | n+1, ts =>
    match ts with
    | .opMinus :: rest =>
      match parseUnary n rest with
      | .error e => .error e
      | .ok (e1, ts1) => .ok (.unop .neg e1, ts1)
    | _ => parseApp n ts

def parseApp : Nat → List Token → PRes Expr
  | 0, _ => .error "Parse fuel exhausted"
  | n+1, ts =>
    match parsePrimary n ts with
    | .error e => .error e
    | .ok (f, ts1) => parseAppLoop n f ts1

def parseAppLoop : Nat → Expr → List Token → PRes Expr
  | 0, _, _ => .error "Parse fuel exhausted"
  | n+1, f, ts =>
    match ts with
    | t :: _ =>
      if startsPrimary t then
        match parsePrimary n ts with
        | .error e => .error e
        | .ok (a, ts1) =>
          match parseAppArgs n ts1 with
          | .error e => .error e
          | .ok (args, ts2) => .ok (.app f (a :: args), ts2)
      else .ok (f, ts)
    | [] => .ok (f, ts)

def parseAppArgs : Nat → List Token → PRes (List Expr)
  | 0, _ => .error "Parse fuel exhausted"
  | n+1, ts =>
    match ts with
    | t :: _ =>
      if startsPrimary t then
        match parsePrimary n ts with
        | .error e => .error e
        | .ok (a, ts1) =>
          match parseAppArgs n ts1 with
          | .error e => .error e
          | .ok (args, ts2) => .ok (a :: args, ts2)
      else .ok ([], ts)
    | [] => .ok ([], ts)

def parsePrimary : Nat → List Token → PRes Expr
  | 0, _ => .error "Parse fuel exhausted"
  | n+1, ts =>
    match ts with
    | .num k :: .dotdot :: .num k2 :: rest => .ok (.range (Int.ofNat k) (Int.ofNat k2), rest)
    | .num k :: rest => .ok (.num (Int.ofNat k), rest)
    | .boolLit b :: rest => .ok (.bool b, rest)
    | .strLit s :: rest => .ok (.str s, rest)
    | .ident s :: rest => .ok (.var s, rest)
    | .lbracket :: .rbracket :: rest => .ok (.list [], rest)
    | .lbracket :: rest =>
      match parseListAfterFirst n rest with
      | .ok r => .ok r
      | .error _ => parseListComp n rest
    | .lparen :: rest =>
      match parseExpr n rest with
      | .error e => .error e
      | .ok (e1, ts1) =>
        match ts1 with
        | .rparen :: ts2 => .ok (e1, ts2)
        | _ => .error "Expected )"
    | _ => .error "Expected primary expression"

def parseListAfterFirst : Nat → List Token → PRes Expr
  | 0, _ => .error "Parse fuel exhausted"
  | n+1, ts =>
    match parseExpr n ts with
    | .error e => .error e
    | .ok (e0, ts1) =>
      match parseListRest n ts1 with
      | .error e => .error e
      | .ok (es, ts2) => .ok (.list (e0 :: es), ts2)

def parseListRest : Nat → List Token → PRes (List Expr)
  | 0, _ => .error "Parse fuel exhausted"
  | n+1, ts =>
    match ts with
    | .rbracket :: rest => .ok ([], rest)
    | .comma :: rest =>
      match parseExpr n rest with
      | .error e => .error e
      | .ok (e1, ts1) =>
        match parseListRest n ts1 with
        | .error e => .error e
        | .ok (es, ts2) => .ok (e1 :: es, ts2)
    | _ => .error "Expected , or ] in list"

def parseListComp : Nat → List Token → PRes Expr
  | 0, _ => .error "Parse fuel exhausted"
  | n+1, ts =>
    match parseExpr n ts with
    | .error e => .error e
    | .ok (body, ts1) =>
      match ts1 with
      | .pipe :: .ident v :: .larrow :: ts2 =>
        match parseExpr n ts2 with
        | .error e => .error e
        | .ok (src, ts3) =>
          match parseCompGuards n ts3 with
          | .error e => .error e
          | .ok (guards, ts4) => .ok (.listComp body v src guards, ts4)
      | _ => .error "Expected | var <- in list comprehension"

def parseCompGuards : Nat → List Token → PRes (List Expr)
  | 0, _ => .error "Parse fuel exhausted"
  | n+1, ts =>
    match ts with
    | .rbracket :: rest => .ok ([], rest)
    | .comma :: rest =>
      match parseExpr n rest with
      | .error e => .error e
      | .ok (g, ts1) =>
        match parseCompGuards n ts1 with
        | .error e => .error e
        | .ok (gs, ts2) => .ok (g :: gs, ts2)
    | _ => .error "Expected , or ] in list comprehension"

end

/-- Top-level parse: tokenize, parse a single expression, require end of
input (the pest program rule is SOI expr EOI). -/
def parse (s : String) : Except String Expr :=
  match tokenize s with
  | .error e => .error e
  | .ok ts =>
    match parseExpr (14 * ts.length + 14) ts with
    | .error e => .error e
    | .ok (e, []) => .ok e
    | .ok (_, _ :: _) => .error "Unexpected trailing tokens"

/-! ### Type checker (src/lang/types.rs).

The substitution map may become cyclic (there is no occurs check), so
`applyTy` and `unify` carry fuel; `none` again means the model's budget ran
out, not a checker outcome. -/

inductive Ty where
  | int
  | bool
  | str
  | list (t : Ty)
  | func (args : List Ty) (ret : Ty)
  | tvar (n : Nat)
  | unknown
deriving Repr

def natRepr (n : Nat) : String := String.mk (natChars n)

def joinArrow : List String → String
  | [] => ""
  | [s] => s
  | s :: rest => s ++ " -> " ++ joinArrow rest

/-! Display for Type (types.rs lines 17-41). -/

mutual

def showTy : Ty → String
  | .int => "Int"
  | .bool => "Bool"
  | .str => "String"
  | .list t => "[" ++ showTy t ++ "]"
  | .func args ret =>
    if args.isEmpty then "() -> " ++ showTy ret
    else joinArrow (showTyList args) ++ " -> " ++ showTy ret
  | .tvar n => "t" ++ natRepr n
  | .unknown => "?"

def showTyList : List Ty → List String
  | [] => []
  | t :: ts => showTy t :: showTyList ts

end

structure TCState where
  next_var : Nat
  substitutions : List (Nat × Ty)

def substGet (k : Nat) : List (Nat × Ty) → Option Ty
  | [] => none
  | (k2, t) :: rest => if k2 = k then some t else substGet k rest

def fresh_var (st : TCState) : Ty × TCState :=
  (.tvar st.next_var, ⟨st.next_var + 1, st.substitutions⟩)

mutual

def applyTy : Nat → TCState → Ty → Option Ty
  | 0, _, _ => none
  | n+1, st, ty =>
    match ty with
    | .tvar k =>
      match substGet k st.substitutions with
      | some t => applyTy n st t
      | none => some ty
    | .list t =>
      match applyTy n st t with
      | none => none
      | some t2 => some (.list t2)
    | .func args ret =>
      match applyTyList n st args with
      | none => none
      | some args2 =>
        match applyTy n st ret with
        | none => none
        | some ret2 => some (.func args2 ret2)
    | t => some t

def applyTyList : Nat → TCState → List Ty → Option (List Ty)
  | 0, _, _ => none
  | n+1, st, tys =>
    match tys with
    | [] => some []
    | t :: rest =>
      match applyTy n st t with
      | none => none
      | some t2 =>
        match applyTyList n st rest with
        | none => none
        | some rest2 => some (t2 :: rest2)

end

mutual

def unify : Nat → TCState → Ty → Ty → Option (Except String TCState)
  | 0, _, _, _ => none
  | n+1, st, t1, t2 =>
    match applyTy (n+1) st t1 with
    | none => none
    | some t1a =>
      match applyTy (n+1) st t2 with
      | none => none
      | some t2a =>
        match t1a, t2a with
        | .int, .int => some (.ok st)
        | .bool, .bool => some (.ok st)
        | .str, .str => some (.ok st)
        | .list a, .list b => unify n st a b
        | .func args1 ret1, .func args2 ret2 =>
          if args1.length ≠ args2.length then some (.error "Function arity mismatch")
          else
            match unifyArgs n st args1 args2 with
            | none => none
            | some (.error e) => some (.error e)
            | some (.ok st2) => unify n st2 ret1 ret2
        | .tvar a, t =>
          match t with
          | .tvar b =>
            if a = b then some (.ok st)
            else some (.ok ⟨st.next_var, (a, t) :: st.substitutions⟩)
          | _ => some (.ok ⟨st.next_var, (a, t) :: st.substitutions⟩)
        | t, .tvar a => some (.ok ⟨st.next_var, (a, t) :: st.substitutions⟩)
        | .unknown, _ => some (.ok st)
        | _, .unknown => some (.ok st)
        | _, _ => some (.error ("Type mismatch: " ++ showTy t1a ++ " vs " ++ showTy t2a))

def unifyArgs : Nat → TCState → List Ty → List Ty → Option (Except String TCState)
  | 0, _, _, _ => none
  | n+1, st, tys1, tys2 =>
    match tys1, tys2 with
    | a1 :: rest1, a2 :: rest2 =>
      match unify n st a1 a2 with
      | none => none
      | some (.error e) => some (.error e)
      | some (.ok st2) => unifyArgs n st2 rest1 rest2
    | _, _ => some (.ok st)

end

abbrev TEnv := List (String × Ty)

def tenvGet (name : String) : TEnv → Option Ty
  | [] => none
  | (k, t) :: rest => if k = name then some t else tenvGet name rest

/-- Fresh type variables for the parameters of a lambda, in order. -/
def freshVars : List String → TCState → List Ty × TCState
  | [], st => ([], st)
  | _ :: rest, st =>
    let (tv, st1) := fresh_var st
    let (tvs, st2) := freshVars rest st1
    (tv :: tvs, st2)

/-- Sequential HashMap inserts: each later insert shadows an earlier one. -/
def insertAll : List String → List Ty → TEnv → TEnv
  | [], _, env => env
  | _ :: _, [], env => env
  | p :: ps, t :: tys, env => insertAll ps tys ((p, t) :: env)

mutual

def infer : Nat → Expr → TCState → TEnv → Option (Except String (Ty × TCState))
  | 0, _, _, _ => none
  | n+1, e, st, env =>
    match e with
    | .num _ => some (.ok (.int, st))
    | .bool _ => some (.ok (.bool, st))
    | .str _ => some (.ok (.str, st))
    | .list items =>
      match items with
      | [] =>
        let (tv, st1) := fresh_var st
        some (.ok (.list tv, st1))
      | e0 :: rest =>
        match infer n e0 st env with
        | none => none
        | some (.error err) => some (.error err)
        | some (.ok (elemTy, st1)) =>
          match inferListElems n rest elemTy st1 env with
          | none => none
          | some (.error err) => some (.error err)
          | some (.ok st2) =>
            match applyTy n st2 elemTy with
            | none => none
            | some t => some (.ok (.list t, st2))
    | .var name =>
      match tenvGet name env with
      | none => some (.error ("Undefined variable: " ++ name))
      | some t => some (.ok (t, st))
    | .lambda params body =>
      let (paramTys, st1) := freshVars params st
      match infer n body st1 (insertAll params paramTys env) with
      | none => none
      | some (.error err) => some (.error err)
      | some (.ok (retTy, st2)) => some (.ok (.func paramTys retTy, st2))
    | .app f args =>
      match infer n f st env with
      | none => none
      | some (.error err) => some (.error err)
      | some (.ok (funcTy, st1)) =>
        match inferArgs n args st1 env with
        | none => none
        | some (.error err) => some (.error err)
        | some (.ok (argTys, st2)) =>
          let (retTy, st3) := fresh_var st2
          match unify n st3 funcTy (.func argTys retTy) with
          | none => none
          | some (.error err) => some (.error err)
          | some (.ok st4) =>
            match applyTy n st4 retTy with
            | none => none
            | some t => some (.ok (t, st4))
    | .letE name value body =>
      match infer n value st env with
      | none => none
      | some (.error err) => some (.error err)
      | some (.ok (vty, st1)) => infer n body st1 ((name, vty) :: env)
    | .ifE cond thenB elseB =>
      match infer n cond st env with
      | none => none
      | some (.error err) => some (.error err)
      | some (.ok (condTy, st1)) =>
        match unify n st1 condTy .bool with
        | none => none
        | some (.error err) => some (.error err)
        | some (.ok st2) =>
          match infer n thenB st2 env with
          | none => none
          | some (.error err) => some (.error err)
          | some (.ok (thenTy, st3)) =>
            match infer n elseB st3 env with
            | none => none
            | some (.error err) => some (.error err)
            | some (.ok (elseTy, st4)) =>
              match unify n st4 thenTy elseTy with
              | none => none
              | some (.error err) => some (.error err)
              | some (.ok st5) =>
                match applyTy n st5 thenTy with
                | none => none
                | some t => some (.ok (t, st5))
    | .binop op l r =>
      match infer n l st env with
      | none => none
      | some (.error err) => some (.error err)
      | some (.ok (leftTy, st1)) =>
        match infer n r st1 env with
        | none => none
        | some (.error err) => some (.error err)
        | some (.ok (rightTy, st2)) => inferBinOp n op leftTy rightTy st2
    | .unop .neg e1 =>
      match infer n e1 st env with
      | none => none
      | some (.error err) => some (.error err)
      | some (.ok (ty, st1)) =>
        match unify n st1 ty .int with
        | none => none
        | some (.error err) => some (.error err)
        | some (.ok st2) => some (.ok (.int, st2))
    | .range _ _ => some (.ok (.list .int, st))
    | .listComp expr var lst guards =>
      match infer n lst st env with
      | none => none
      | some (.error err) => some (.error err)
      | some (.ok (listTy, st1)) =>
        let (elemTy, st2) := fresh_var st1
        match unify n st2 listTy (.list elemTy) with
        | none => none
        | some (.error err) => some (.error err)
        | some (.ok st3) =>
          match applyTy n st3 elemTy with
          | none => none
          | some elemTy2 =>
            let newEnv := (var, elemTy2) :: env
            match inferGuards n guards st3 newEnv with
            | none => none
            | some (.error err) => some (.error err)
            | some (.ok st4) =>
              match infer n expr st4 newEnv with
              | none => none
              | some (.error err) => some (.error err)
              | some (.ok (resTy, st5)) => some (.ok (.list resTy, st5))
    | .matchE scrut arms =>
      match infer n scrut st env with
      | none => none
      | some (.error err) => some (.error err)
      | some (.ok (scrutTy, st1)) =>
        match arms with
        | [] => some (.error "Match must have at least one arm")
        | arm0 :: rest =>
          match check_pattern n arm0.1 scrutTy st1 env with
          | none => none
          | some (.error err) => some (.error err)
          | some (.ok (st2, env2)) =>
            match infer n arm0.2 st2 env2 with
            | none => none
            | some (.error err) => some (.error err)
            | some (.ok (resTy, st3)) =>
              match inferArms n rest scrutTy resTy st3 env with
              | none => none
              | some (.error err) => some (.error err)
              | some (.ok st4) =>
                match applyTy n st4 resTy with
                | none => none
                | some t => some (.ok (t, st4))

def inferListElems : Nat → List Expr → Ty → TCState → TEnv →
    Option (Except String TCState)
  | 0, _, _, _, _ => none
  | n+1, items, elemTy, st, env =>
    match items with
    | [] => some (.ok st)
    | e0 :: rest =>
      match infer n e0 st env with
      | none => none
      | some (.error err) => some (.error err)
      | some (.ok (ty, st1)) =>
        match unify n st1 elemTy ty with
        | none => none
        | some (.error err) => some (.error err)
        | some (.ok st2) => inferListElems n rest elemTy st2 env

def inferArgs : Nat → List Expr → TCState → TEnv →
    Option (Except String (List Ty × TCState))
  | 0, _, _, _ => none
  | n+1, args, st, env =>
    match args with
    | [] => some (.ok ([], st))
    | a :: rest =>
      match infer n a st env with
      | none => none
      | some (.error err) => some (.error err)
      | some (.ok (ty, st1)) =>
        match inferArgs n rest st1 env with
        | none => none
        | some (.error err) => some (.error err)
        | some (.ok (tys, st2)) => some (.ok (ty :: tys, st2))

def inferBinOp : Nat → BinOpK → Ty → Ty → TCState →
    Option (Except String (Ty × TCState))
  | 0, _, _, _, _ => none
  | n+1, op, leftTy, rightTy, st =>
    match op with
    | .add | .sub | .mul | .div | .mod | .pow =>
      match unify n st leftTy .int with
      | none => none
      | some (.error err) => some (.error err)
      | some (.ok st1) =>
        match unify n st1 rightTy .int with
        | none => none
        | some (.error err) => some (.error err)
        | some (.ok st2) => some (.ok (.int, st2))
    | .eq | .neq | .lt | .gt | .lte | .gte =>
      match unify n st leftTy rightTy with
      | none => none
      | some (.error err) => some (.error err)
      | some (.ok st1) => some (.ok (.bool, st1))
    | .and | .or =>
      match unify n st leftTy .bool with
      | none => none
      | some (.error err) => some (.error err)
      | some (.ok st1) =>
        match unify n st1 rightTy .bool with
        | none => none
        | some (.error err) => some (.error err)
        | some (.ok st2) => some (.ok (.bool, st2))
    | .cons =>
      let (elemTy, st1) := fresh_var st
      match unify n st1 leftTy elemTy with
      | none => none
      | some (.error err) => some (.error err)
      | some (.ok st2) =>
        match unify n st2 rightTy (.list elemTy) with
        | none => none
        | some (.error err) => some (.error err)
        | some (.ok st3) =>
          match applyTy n st3 (.list elemTy) with
          | none => none
          | some t => some (.ok (t, st3))
    | .concat =>
      let (elemTy, st1) := fresh_var st
      match unify n st1 leftTy (.list elemTy) with
      | none => none
      | some (.error err) => some (.error err)
      | some (.ok st2) =>
        match unify n st2 rightTy (.list elemTy) with
        | none => none
        | some (.error err) => some (.error err)
        | some (.ok st3) =>
          match applyTy n st3 (.list elemTy) with
          | none => none
          | some t => some (.ok (t, st3))
    | .pipeForward =>
      let (retTy, st1) := fresh_var st
      match unify n st1 rightTy (.func [leftTy] retTy) with
      | none => none
      | some (.error err) => some (.error err)
      | some (.ok st2) =>
        match applyTy n st2 retTy with
        | none => none
        | some t => some (.ok (t, st2))
    | .pipeBackward =>
      let (retTy, st1) := fresh_var st
      match unify n st1 leftTy (.func [rightTy] retTy) with
      | none => none
      | some (.error err) => some (.error err)
      | some (.ok st2) =>
        match applyTy n st2 retTy with
        | none => none
        | some t => some (.ok (t, st2))

def inferGuards : Nat → List Expr → TCState → TEnv → Option (Except String TCState)
  | 0, _, _, _ => none
  | n+1, guards, st, env =>
    match guards with
    | [] => some (.ok st)
    | g :: rest =>
      match infer n g st env with
      | none => none
      | some (.error err) => some (.error err)
      | some (.ok (gty, st1)) =>
        match unify n st1 gty .bool with
        | none => none
        | some (.error err) => some (.error err)
        | some (.ok st2) => inferGuards n rest st2 env

def inferArms : Nat → List (Pattern × Expr) → Ty → Ty → TCState → TEnv →
    Option (Except String TCState)
  | 0, _, _, _, _, _ => none
  | n+1, arms, scrutTy, resTy, st, env =>
    match arms with
    | [] => some (.ok st)
    | arm :: rest =>
      match check_pattern n arm.1 scrutTy st env with
      | none => none
      | some (.error err) => some (.error err)
      | some (.ok (st1, env1)) =>
        match infer n arm.2 st1 env1 with
        | none => none
        | some (.error err) => some (.error err)
        | some (.ok (armTy, st2)) =>
          match unify n st2 resTy armTy with
          | none => none
          | some (.error err) => some (.error err)
          | some (.ok st3) => inferArms n rest scrutTy resTy st3 env

def check_pattern : Nat → Pattern → Ty → TCState → TEnv →
    Option (Except String (TCState × TEnv))
  | 0, _, _, _, _ => none
  | n+1, pat, ty, st, env =>
    match pat with
    | .wildcard => some (.ok (st, env))
    | .var name => some (.ok (st, (name, ty) :: env))
    | .num _ =>
      match unify n st ty .int with
      | none => none
      | some (.error err) => some (.error err)
      | some (.ok st1) => some (.ok (st1, env))
    | .bool _ =>
      match unify n st ty .bool with
      | none => none
      | some (.error err) => some (.error err)
      | some (.ok st1) => some (.ok (st1, env))
    | .str _ =>
      match unify n st ty .str with
      | none => none
      | some (.error err) => some (.error err)
      | some (.ok st1) => some (.ok (st1, env))
    | .list pats =>
      let (elemTy, st1) := fresh_var st
      match unify n st1 ty (.list elemTy) with
      | none => none
      | some (.error err) => some (.error err)
      | some (.ok st2) => checkPatternList n pats elemTy st2 env
    | .cons hd tl =>
      let (elemTy, st1) := fresh_var st
      match unify n st1 ty (.list elemTy) with
      | none => none
      | some (.error err) => some (.error err)
      | some (.ok st2) =>
        match applyTy n st2 elemTy with
        | none => none
        | some elemTy2 =>
          match check_pattern n hd elemTy2 st2 env with
          | none => none
          | some (.error err) => some (.error err)
          | some (.ok (st3, env1)) =>
            match applyTy n st3 (.list elemTy) with
            | none => none
            | some listTy2 => check_pattern n tl listTy2 st3 env1

def checkPatternList : Nat → List Pattern → Ty → TCState → TEnv →
    Option (Except String (TCState × TEnv))
  | 0, _, _, _, _ => none
  | n+1, pats, elemTy, st, env =>
    match pats with
    | [] => some (.ok (st, env))
    | p :: rest =>
      match applyTy n st elemTy with
      | none => none
      | some elemTy2 =>
        match check_pattern n p elemTy2 st env with
        | none => none
        | some (.error err) => some (.error err)
        | some (.ok (st1, env1)) => checkPatternList n rest elemTy st1 env1

end

/-- Builtin type environment (types.rs get_builtin_env, lines 300-442);
`a` is Var 1000 and `b` is Var 1001, shared across all registrations. -/
def type_builtin_env : TEnv :=
  let a : Ty := .tvar 1000
  let b : Ty := .tvar 1001
  [("map", .func [.func [a] b, .list a] (.list b)),
   ("filter", .func [.func [a] .bool, .list a] (.list a)),
   ("fold", .func [.func [b, a] b, b, .list a] b),
   ("foldl", .func [.func [b, a] b, b, .list a] b),
   ("foldr", .func [.func [b, a] b, b, .list a] b),
   ("zip", .func [.list a, .list b] (.list a)),
   ("take", .func [.int, .list a] (.list a)),
   ("drop", .func [.int, .list a] (.list a)),
   ("reverse", .func [.list a] (.list a)),
   ("sort", .func [.list .int] (.list .int)),
   ("length", .func [.list a] .int),
   ("head", .func [.list a] a),
   ("tail", .func [.list a] (.list a)),
   ("sum", .func [.list .int] .int),
   ("product", .func [.list .int] .int),
   ("concat", .func [.list (.list a)] (.list a)),
   ("elem", .func [a, .list a] .bool)]

/-! ### Test runner (src/runner.rs).

The wall-clock timeout guards (Instant::now / TIMEOUT_SECS) concern real time
and are not modelled; `tfuel`/`efuel` are the model budgets for the type
checker and the evaluator (a `none` result means a budget ran out). -/

structure TestCase where
  input : String
  expected : String
  description : String

structure TestResult where
  passed : Bool
  expected : String
  actual : String
  description : String
  error : Option String
deriving Repr

/-- Does the second character list start with the first? -/
def leadMatches : List Char → List Char → Bool
  | [], _ => true
  | _ :: _, [] => false
  | a :: as_, b :: bs => a == b && leadMatches as_ bs

def seqContains (needle : List Char) : List Char → Bool
  | [] => leadMatches needle []
  | b :: bs => leadMatches needle (b :: bs) || seqContains needle bs

/-- str::contains on literal substrings. -/
def strContains (hay needle : String) : Bool := seqContains needle.toList hay.toList

/-- runner.rs execute_with_timeout (lines 62-107): parse, type-check, re-parse
`(code) input` when input is nonempty, evaluate in the builtin environment,
remap the recursion-depth message, and print the result. -/
def execute_with_timeout (tfuel efuel : Nat) (code input : String) :
    Option (Except String String) :=
  match parse code with
  | .error e => some (.error ("Parse error: " ++ e))
  | .ok userExpr =>
    match infer tfuel userExpr ⟨0, []⟩ type_builtin_env with
    | none => none
    | some (.error e) => some (.error ("Type error: " ++ e))
    | some (.ok _) =>
      let fullCode := if input = "" then code else "(" ++ code ++ ") " ++ input
      match parse fullCode with
      | .error e => some (.error ("Parse error: " ++ e))
      | .ok expr =>
        match eval efuel expr get_builtin_env 0 with
        | none => none
        | some (.error e, _) =>
          some (.error (if strContains e "Maximum recursion depth"
                        then "Infinite recursion detected" else e))
        | some (.ok v, _) => some (.ok (to_string_repr v))

/-- runner.rs run_single_test (lines 33-60). -/
def run_single_test (tfuel efuel : Nat) (code : String) (tc : TestCase) :
    Option TestResult :=
  match execute_with_timeout tfuel efuel code tc.input with
  | none => none
  | some (.ok actual) =>
    let actualStr := actual.trim
    let expectedStr := tc.expected.trim
    some ⟨actualStr == expectedStr, expectedStr, actualStr, tc.description, none⟩
  | some (.error e) => some ⟨false, tc.expected, "", tc.description, some e⟩

/-! ### Predicates and helper functions used by the verification layer. -/

def RestoresOnOk (ev : EvalFn) : Prop :=
  ∀ e env d v c, ev e env d = some (.ok v, c) → c = d

def RestoresOnOkApp (evApp : EvalAppFn) : Prop :=
  ∀ f args env d v c, evApp f args env d = some (.ok v, c) → c = d

def builtinArities : List (String × Nat) :=
  [("map", 2), ("filter", 2), ("fold", 3), ("foldl", 3), ("foldr", 3),
   ("zip", 2), ("take", 2), ("drop", 2), ("reverse", 1), ("sort", 1),
   ("length", 1), ("head", 1), ("tail", 1), ("sum", 1), ("product", 1),
   ("concat", 1), ("elem", 2)]

def arityMsg (name : String) (k : Nat) : String :=
  name ++ " requires " ++ natRepr k ++ (if k = 1 then " argument" else " arguments")

/-- Values printable per section 4.4 (Number, Bool, String, List of the same),
with strings free of the double quote (print performs no escape rewriting, so
a quote in a string breaks the printed form). -/
inductive Printable : Value → Prop where
  | num (n : Int) : Printable (.num n)
  | bool (b : Bool) : Printable (.bool b)
  | str (s : String) : (∀ c ∈ s.toList, c ≠ '"') → Printable (.str s)
  | list (items : List Value) : (∀ v ∈ items, Printable v) → Printable (.list items)

mutual

/-- The token stream of the printed form of a printable value. -/
def tokensOfVal : Value → List Token
  | .num n => if n < 0 then [.opMinus, .num (-n).toNat] else [.num n.toNat]
  | .bool b => [.boolLit b]
  | .str s => [.strLit s]
  | .list items => .lbracket :: (tokensInner items ++ [.rbracket])
  | .function _ _ _ => []
  | .builtin _ => []
  | .thunk _ _ => []

def tokensInner : List Value → List Token
  | [] => []
  | v :: vs => tokensOfVal v ++ tokensComma vs

def tokensComma : List Value → List Token
  | [] => []
  | v :: vs => .comma :: (tokensOfVal v ++ tokensComma vs)

end

mutual

/-- The AST the parser yields for the printed form of a printable value. -/
def astOf : Value → Expr
  | .num n => if n < 0 then .unop .neg (.num (-n)) else .num n
  | .bool b => .bool b
  | .str s => .str s
  | .list items => .list (astOfList items)
  | .function _ _ _ => .num 0
  | .builtin _ => .num 0
  | .thunk _ _ => .num 0

def astOfList : List Value → List Expr
  | [] => []
  | v :: vs => astOf v :: astOfList vs

end

/-- Character-level boundary after a printed value: end of input, a comma
(list separator) or a closing bracket. -/
def BoundaryC : List Char → Prop
  | [] => True
  | c :: _ => c = ',' ∨ c = ']' 

/-- Token-level boundary after a parsed value. -/
def TokBoundary : List Token → Prop
  | [] => True
  | t :: _ => t = .comma ∨ t = .rbracket

/-- The head of the character list (if any) fails p. -/
def headFails (p : Char → Bool) : List Char → Prop
  | [] => True
  | c :: _ => p c = false

def TokOk (cs : List Char) (ts : List Token) : Prop :=
  ∀ f, cs.length < f → tokenizeAux f cs = .ok ts

mutual

/-- Fuel bound at the parseUnary level for the tokens of a printable value. -/
def pufuel : Value → Nat
  | .num _ => 4
  | .bool _ => 3
  | .str _ => 3
  | .list items => plfuel items + 16
  | .function _ _ _ => 3
  | .builtin _ => 3
  | .thunk _ _ => 3

/-- Fuel bound at the parseListRest level for a comma-separated tail. -/
def plfuel : List Value → Nat
  | [] => 1
  | v :: vs => pufuel v + 11 + plfuel vs

end

/-- Tokens that can start the printed form of a value. -/
def HeadVal : Token → Prop
  | .num _ => True
  | .boolLit _ => True
  | .strLit _ => True
  | .lbracket => True
  | .opMinus => True
  | _ => False

mutual

/-- Evaluation-depth bound of the literal AST of a printable value. -/
def vdepth : Value → Nat
  | .num n => if n < 0 then 2 else 1
  | .bool _ => 1
  | .str _ => 1
  | .list items => 1 + vdList items
  | .function _ _ _ => 1
  | .builtin _ => 1
  | .thunk _ _ => 1

def vdList : List Value → Nat
  | [] => 0
  | v :: vs => max (vdepth v) (vdList vs)

end

/-! ### Theorems. -/

theorem eval_zero : eval 0 = fun _ _ _ => none := rfl

theorem eval_app_zero : eval_app 0 = fun _ _ _ _ => none := rfl

theorem eval_succ (n : Nat) : eval (n+1) = evalBodyB (eval n) (eval_app n) := rfl

theorem eval_app_succ (n : Nat) :
    eval_app (n+1) = evalAppB (eval (n+1)) (eval_app n) := rfl

theorem andThenR_ok {α β : Type} {r : Option (Except String α × Nat)}
    {k : α → Nat → Option (Except String β × Nat)} {b : β} {c' : Nat}
    (h : andThenR r k = some (.ok b, c')) :
    ∃ a c1, r = some (.ok a, c1) ∧ k a c1 = some (.ok b, c') := by
  cases r with
  | none => simp [andThenR] at h
  | some p =>
    obtain ⟨exc, c1⟩ := p
    cases exc with
    | error e => simp [andThenR] at h
    | ok a => exact ⟨a, c1, rfl, h⟩

theorem decr_ok {r : Res} {v : Value} {c' : Nat}
    (h : decr r = some (.ok v, c')) :
    ∃ c1, r = some (.ok v, c1) ∧ c' = c1 - 1 := by
  cases r with
  | none => simp [decr] at h
  | some p =>
    obtain ⟨r2, c⟩ := p
    simp only [decr] at h
    obtain ⟨h1, h2⟩ := Prod.mk.injEq .. ▸ Option.some.inj h
    subst h1
    exact ⟨c, rfl, h2.symm⟩

theorem withExpr_ok {β : Type} {v : Value} {c : Nat}
    {k : Expr → Option (Except String β × Nat)} {b : β} {c' : Nat}
    (h : withExpr v c k = some (.ok b, c')) :
    ∃ ex, value_to_expr v = .ok ex ∧ k ex = some (.ok b, c') := by
  cases hv : value_to_expr v with
  | error e =>
    unfold withExpr at h
    rw [hv] at h
    simp at h
  | ok ex =>
    unfold withExpr at h
    rw [hv] at h
    exact ⟨ex, rfl, h⟩

theorem forceB_restore {ev : EvalFn} (hev : RestoresOnOk ev) :
    ∀ v d r c, forceB ev v d = some (.ok r, c) → c = d := by
  intro v d r c h
  cases v
  case thunk e te => exact hev _ _ _ _ _ h
  all_goals (simp [forceB] at h; obtain ⟨h1, h2⟩ := h; omega)

end Less

namespace Less

theorem evalListElemsB_restore {ev : EvalFn} (hev : RestoresOnOk ev) :
    ∀ items env cIn vs c, evalListElemsB ev items env cIn = some (.ok vs, c) → c = cIn := by
  intro items
  induction items with
  | nil =>
    intro env cIn vs c h
    simp [evalListElemsB] at h
    omega
  | cons e es ih =>
    intro env cIn vs c h
    rw [evalListElemsB] at h
    obtain ⟨v, c1, h1, h2⟩ := andThenR_ok h
    obtain ⟨vs2, c2, h3, h4⟩ := andThenR_ok h2
    have e1 := hev _ _ _ _ _ h1
    have e2 := ih _ _ _ _ h3
    simp at h4
    omega

theorem bindArgsB_restore {ev : EvalFn} (hev : RestoresOnOk ev) :
    ∀ params args env acc cIn r c,
      bindArgsB ev params args env acc cIn = some (.ok r, c) → c = cIn := by
  intro params
  induction params with
  | nil =>
    intro args env acc cIn r c h
    simp [bindArgsB] at h
    omega
  | cons p ps ih =>
    intro args env acc cIn r c h
    cases args with
    | nil => simp [bindArgsB] at h; omega
    | cons a as_ =>
      rw [bindArgsB] at h
      obtain ⟨v, c1, h1, h2⟩ := andThenR_ok h
      have e1 := hev _ _ _ _ _ h1
      have e2 := ih _ _ _ _ _ _ h2
      omega

theorem mapLoopB_restore {evApp : EvalAppFn} (happ : RestoresOnOkApp evApp) :
    ∀ f items env cIn vs c, mapLoopB evApp f items env cIn = some (.ok vs, c) → c = cIn := by
  intro f items
  induction items with
  | nil => intro env cIn vs c h; simp [mapLoopB] at h; omega
  | cons item rest ih =>
    intro env cIn vs c h
    rw [mapLoopB] at h
    obtain ⟨ie, hie, h2⟩ := withExpr_ok h
    obtain ⟨fe, hfe, h3⟩ := withExpr_ok h2
    obtain ⟨v, c1, h4, h5⟩ := andThenR_ok h3
    obtain ⟨vs2, c2, h6, h7⟩ := andThenR_ok h5
    have e1 := happ _ _ _ _ _ _ h4
    have e2 := ih _ _ _ _ h6
    simp at h7
    omega

theorem filterLoopB_restore {evApp : EvalAppFn} (happ : RestoresOnOkApp evApp) :
    ∀ f items env cIn vs c, filterLoopB evApp f items env cIn = some (.ok vs, c) → c = cIn := by
  intro f items
  induction items with
  | nil => intro env cIn vs c h; simp [filterLoopB] at h; omega
  | cons item rest ih =>
    intro env cIn vs c h
    rw [filterLoopB] at h
    obtain ⟨ie, hie, h2⟩ := withExpr_ok h
    obtain ⟨fe, hfe, h3⟩ := withExpr_ok h2
    obtain ⟨pred, c1, h4, h5⟩ := andThenR_ok h3
    have e1 := happ _ _ _ _ _ _ h4
    cases pred
    case bool b =>
      cases b with
      | true =>
        simp at h5
        obtain ⟨vs2, c2, h6, h7⟩ := andThenR_ok h5
        have e2 := ih _ _ _ _ h6
        simp at h7
        omega
      | false =>
        simp at h5
        have e2 := ih _ _ _ _ h5
        omega
    all_goals simp at h5

theorem foldLoopB_restore {evApp : EvalAppFn} (happ : RestoresOnOkApp evApp) :
    ∀ items f acc env cIn r c, foldLoopB evApp f acc items env cIn = some (.ok r, c) → c = cIn := by
  intro items
  induction items with
  | nil => intro f acc env cIn r c h; simp [foldLoopB] at h; omega
  | cons item rest ih =>
    intro f acc env cIn r c h
    rw [foldLoopB] at h
    obtain ⟨ae, hae, h2⟩ := withExpr_ok h
    obtain ⟨ie, hie, h3⟩ := withExpr_ok h2
    obtain ⟨fe, hfe, h4⟩ := withExpr_ok h3
    obtain ⟨acc2, c1, h5, h6⟩ := andThenR_ok h4
    have e1 := happ _ _ _ _ _ _ h5
    have e2 := ih _ _ _ _ _ _ h6
    omega

theorem foldrLoopB_restore {evApp : EvalAppFn} (happ : RestoresOnOkApp evApp) :
    ∀ items f acc env cIn r c, foldrLoopB evApp f acc items env cIn = some (.ok r, c) → c = cIn := by
  intro items
  induction items with
  | nil => intro f acc env cIn r c h; simp [foldrLoopB] at h; omega
  | cons item rest ih =>
    intro f acc env cIn r c h
    rw [foldrLoopB] at h
    obtain ⟨ie, hie, h2⟩ := withExpr_ok h
    obtain ⟨ae, hae, h3⟩ := withExpr_ok h2
    obtain ⟨fe, hfe, h4⟩ := withExpr_ok h3
    obtain ⟨acc2, c1, h5, h6⟩ := andThenR_ok h4
    have e1 := happ _ _ _ _ _ _ h5
    have e2 := ih _ _ _ _ _ _ h6
    omega

theorem guardLoopB_restore {ev : EvalFn} (hev : RestoresOnOk ev) :
    ∀ gs env cIn b c, guardLoopB ev gs env cIn = some (.ok b, c) → c = cIn := by
  intro gs
  induction gs with
  | nil => intro env cIn b c h; simp [guardLoopB] at h; omega
  | cons g rest ih =>
    intro env cIn b c h
    rw [guardLoopB] at h
    obtain ⟨v, c1, h1, h2⟩ := andThenR_ok h
    have e1 := hev _ _ _ _ _ h1
    cases v
    case bool bb =>
      cases bb with
      | false => simp at h2; omega
      | true =>
        simp at h2
        have e2 := ih _ _ _ _ h2
        omega
    all_goals simp at h2

theorem compLoopB_restore {ev : EvalFn} (hev : RestoresOnOk ev) :
    ∀ items expr var guards env cIn vs c,
      compLoopB ev expr var guards items env cIn = some (.ok vs, c) → c = cIn := by
  intro items
  induction items with
  | nil => intro expr var guards env cIn vs c h; simp [compLoopB] at h; omega
  | cons item rest ih =>
    intro expr var guards env cIn vs c h
    rw [compLoopB] at h
    obtain ⟨passes, c1, h1, h2⟩ := andThenR_ok h
    have e1 := guardLoopB_restore hev _ _ _ _ _ h1
    cases passes with
    | false =>
      simp at h2
      have e2 := ih _ _ _ _ _ _ _ h2
      omega
    | true =>
      simp at h2
      obtain ⟨v, c2, h3, h4⟩ := andThenR_ok h2
      obtain ⟨vs2, c3, h5, h6⟩ := andThenR_ok h4
      have e2 := hev _ _ _ _ _ h3
      have e3 := ih _ _ _ _ _ _ _ h5
      simp at h6
      omega

theorem armLoopB_restore {ev : EvalFn} (hev : RestoresOnOk ev) :
    ∀ arms v env cIn r c, armLoopB ev arms v env cIn = some (.ok r, c) → c = cIn := by
  intro arms
  induction arms with
  | nil => intro v env cIn r c h; simp [armLoopB] at h
  | cons arm rest ih =>
    intro v env cIn r c h
    obtain ⟨pat, body⟩ := arm
    rw [armLoopB] at h
    split at h
    · exact hev _ _ _ _ _ h
    · exact ih _ _ _ _ _ h

end Less

namespace Less

/-- Generic counter-restoration for a `?`-chained step: if the first result
restores and the continuation restores, the whole chain restores. -/
theorem restore_chain {α β : Type} {r : Option (Except String α × Nat)} {cIn : Nat}
    (hr : ∀ a c1, r = some (.ok a, c1) → c1 = cIn)
    {k : α → Nat → Option (Except String β × Nat)} {b : β} {c : Nat}
    (hk : ∀ a c1 b2 c2, k a c1 = some (.ok b2, c2) → c2 = c1)
    (h : andThenR r k = some (.ok b, c)) : c = cIn := by
  obtain ⟨a, c1, h1, h2⟩ := andThenR_ok h
  have e1 := hr _ _ h1
  have e2 := hk _ _ _ _ h2
  omega

theorem ok_counter {β : Type} {x : Except String β} {cIn : Nat} {b2 : β} {c2 : Nat}
    (h : (some (x, cIn) : Option (Except String β × Nat)) = some (.ok b2, c2)) :
    c2 = cIn := by
  injection h with h'
  injection h' with h1 h2
  omega

theorem evalBuiltinB_map (ev : EvalFn) (evApp : EvalAppFn)
    (args : List Expr) (env : Env) (c : Nat) :
    evalBuiltinB ev evApp "map" args env c =
      (
    match args with
    | a0 :: a1 :: _ =>
      andThenR (ev a0 env c) fun f c1 =>
        andThenR (ev a1 env c1) fun lv c2 =>
          match lv with
          | .list items =>
            andThenR (mapLoopB evApp f items env c2) fun vs c3 =>
              some (.ok (.list vs), c3)
          | _ => some (.error "map: second argument must be a list", c2)
    | _ => some (.error "map requires 2 arguments", c)
      ) := rfl

theorem evalBuiltinB_filter (ev : EvalFn) (evApp : EvalAppFn)
    (args : List Expr) (env : Env) (c : Nat) :
    evalBuiltinB ev evApp "filter" args env c =
      (
    match args with
    | a0 :: a1 :: _ =>
      andThenR (ev a0 env c) fun f c1 =>
        andThenR (ev a1 env c1) fun lv c2 =>
          match lv with
          | .list items =>
            andThenR (filterLoopB evApp f items env c2) fun vs c3 =>
              some (.ok (.list vs), c3)
          | _ => some (.error "filter: second argument must be a list", c2)
    | _ => some (.error "filter requires 2 arguments", c)
      ) := rfl

theorem evalBuiltinB_fold (ev : EvalFn) (evApp : EvalAppFn)
    (args : List Expr) (env : Env) (c : Nat) :
    evalBuiltinB ev evApp "fold" args env c =
      (
    match args with
    | a0 :: a1 :: a2 :: _ =>
      andThenR (ev a0 env c) fun f c1 =>
        andThenR (ev a1 env c1) fun acc0 c2 =>
          andThenR (ev a2 env c2) fun lv c3 =>
            match lv with
            | .list items => foldLoopB evApp f acc0 items env c3
            | _ => some (.error "fold: third argument must be a list", c3)
    | _ => some (.error "fold requires 3 arguments", c)
      ) := rfl

theorem evalBuiltinB_foldl (ev : EvalFn) (evApp : EvalAppFn)
    (args : List Expr) (env : Env) (c : Nat) :
    evalBuiltinB ev evApp "foldl" args env c =
      (
    match args with
    | a0 :: a1 :: a2 :: _ =>
      andThenR (ev a0 env c) fun f c1 =>
        andThenR (ev a1 env c1) fun acc0 c2 =>
          andThenR (ev a2 env c2) fun lv c3 =>
            match lv with
            | .list items => foldLoopB evApp f acc0 items env c3
            | _ => some (.error "foldl: third argument must be a list", c3)
    | _ => some (.error "foldl requires 3 arguments", c)
      ) := rfl

theorem evalBuiltinB_foldr (ev : EvalFn) (evApp : EvalAppFn)
    (args : List Expr) (env : Env) (c : Nat) :
    evalBuiltinB ev evApp "foldr" args env c =
      (
    match args with
    | a0 :: a1 :: a2 :: _ =>
      andThenR (ev a0 env c) fun f c1 =>
        andThenR (ev a1 env c1) fun acc0 c2 =>
          andThenR (ev a2 env c2) fun lv c3 =>
            match lv with
            | .list items => foldrLoopB evApp f acc0 items.reverse env c3
            | _ => some (.error "foldr: third argument must be a list", c3)
    | _ => some (.error "foldr requires 3 arguments", c)
      ) := rfl

theorem evalBuiltinB_zip (ev : EvalFn) (evApp : EvalAppFn)
    (args : List Expr) (env : Env) (c : Nat) :
    evalBuiltinB ev evApp "zip" args env c =
      (
    match args with
    | a0 :: a1 :: _ =>
      andThenR (ev a0 env c) fun l1 c1 =>
        andThenR (ev a1 env c1) fun l2 c2 =>
          match l1, l2 with
          | .list items1, .list items2 =>
            some (.ok (.list (List.zipWith (fun a b => Value.list [a, b]) items1 items2)), c2)
          | _, _ => some (.error "zip: both arguments must be lists", c2)
    | _ => some (.error "zip requires 2 arguments", c)
      ) := rfl

theorem evalBuiltinB_take (ev : EvalFn) (evApp : EvalAppFn)
    (args : List Expr) (env : Env) (c : Nat) :
    evalBuiltinB ev evApp "take" args env c =
      (
    match args with
    | a0 :: a1 :: _ =>
      andThenR (ev a0 env c) fun nv c1 =>
        andThenR (ev a1 env c1) fun lv c2 =>
          match nv, lv with
          | .num k, .list items => some (.ok (.list (items.take (max k 0).toNat)), c2)
          | _, _ => some (.error "take: invalid arguments", c2)
    | _ => some (.error "take requires 2 arguments", c)
      ) := rfl

theorem evalBuiltinB_drop (ev : EvalFn) (evApp : EvalAppFn)
    (args : List Expr) (env : Env) (c : Nat) :
    evalBuiltinB ev evApp "drop" args env c =
      (
    match args with
    | a0 :: a1 :: _ =>
      andThenR (ev a0 env c) fun nv c1 =>
        andThenR (ev a1 env c1) fun lv c2 =>
          match nv, lv with
          | .num k, .list items => some (.ok (.list (items.drop (max k 0).toNat)), c2)
          | _, _ => some (.error "drop: invalid arguments", c2)
    | _ => some (.error "drop requires 2 arguments", c)
      ) := rfl

theorem evalBuiltinB_reverse (ev : EvalFn) (evApp : EvalAppFn)
    (args : List Expr) (env : Env) (c : Nat) :
    evalBuiltinB ev evApp "reverse" args env c =
      (
    match args with
    | a0 :: _ =>
      andThenR (ev a0 env c) fun lv c1 =>
        match lv with
        | .list items => some (.ok (.list items.reverse), c1)
        | _ => some (.error "reverse: argument must be a list", c1)
    | _ => some (.error "reverse requires 1 argument", c)
      ) := rfl

theorem evalBuiltinB_sort (ev : EvalFn) (evApp : EvalAppFn)
    (args : List Expr) (env : Env) (c : Nat) :
    evalBuiltinB ev evApp "sort" args env c =
      (
    match args with
    | a0 :: _ =>
      andThenR (ev a0 env c) fun lv c1 =>
        match lv with
        | .list items =>
          match asNums "sort: list must contain only numbers" items with
          | .error e => some (.error e, c1)
          | .ok ns => some (.ok (.list ((sortInts ns).map Value.num)), c1)
        | _ => some (.error "sort: argument must be a list", c1)
    | _ => some (.error "sort requires 1 argument", c)
      ) := rfl

theorem evalBuiltinB_length (ev : EvalFn) (evApp : EvalAppFn)
    (args : List Expr) (env : Env) (c : Nat) :
    evalBuiltinB ev evApp "length" args env c =
      (
    match args with
    | a0 :: _ =>
      andThenR (ev a0 env c) fun lv c1 =>
        match lv with
        | .list items => some (.ok (.num items.length), c1)
        | _ => some (.error "length: argument must be a list", c1)
    | _ => some (.error "length requires 1 argument", c)
      ) := rfl

theorem evalBuiltinB_head (ev : EvalFn) (evApp : EvalAppFn)
    (args : List Expr) (env : Env) (c : Nat) :
    evalBuiltinB ev evApp "head" args env c =
      (
    match args with
    | a0 :: _ =>
      andThenR (ev a0 env c) fun lv c1 =>
        match lv with
        | .list items =>
          match items with
          | [] => some (.error "head: empty list", c1)
          | v :: _ => some (.ok v, c1)
        | _ => some (.error "head: argument must be a list", c1)
    | _ => some (.error "head requires 1 argument", c)
      ) := rfl

theorem evalBuiltinB_tail (ev : EvalFn) (evApp : EvalAppFn)
    (args : List Expr) (env : Env) (c : Nat) :
    evalBuiltinB ev evApp "tail" args env c =
      (
    match args with
    | a0 :: _ =>
      andThenR (ev a0 env c) fun lv c1 =>
        match lv with
        | .list items =>
          match items with
          | [] => some (.error "tail: empty list", c1)
          | _ :: rest => some (.ok (.list rest), c1)
        | _ => some (.error "tail: argument must be a list", c1)
    | _ => some (.error "tail requires 1 argument", c)
      ) := rfl

theorem evalBuiltinB_sum (ev : EvalFn) (evApp : EvalAppFn)
    (args : List Expr) (env : Env) (c : Nat) :
    evalBuiltinB ev evApp "sum" args env c =
      (
    match args with
    | a0 :: _ =>
      andThenR (ev a0 env c) fun lv c1 =>
        match lv with
        | .list items =>
          match asNums "sum: list must contain only numbers" items with
          | .error e => some (.error e, c1)
          | .ok ns => some (.ok (.num (ns.foldr (· + ·) 0)), c1)
        | _ => some (.error "sum: argument must be a list", c1)
    | _ => some (.error "sum requires 1 argument", c)
      ) := rfl

theorem evalBuiltinB_product (ev : EvalFn) (evApp : EvalAppFn)
    (args : List Expr) (env : Env) (c : Nat) :
    evalBuiltinB ev evApp "product" args env c =
      (
    match args with
    | a0 :: _ =>
      andThenR (ev a0 env c) fun lv c1 =>
        match lv with
        | .list items =>
          match asNums "product: list must contain only numbers" items with
          | .error e => some (.error e, c1)
          | .ok ns => some (.ok (.num (ns.foldr (· * ·) 1)), c1)
        | _ => some (.error "product: argument must be a list", c1)
    | _ => some (.error "product requires 1 argument", c)
      ) := rfl

theorem evalBuiltinB_concat (ev : EvalFn) (evApp : EvalAppFn)
    (args : List Expr) (env : Env) (c : Nat) :
    evalBuiltinB ev evApp "concat" args env c =
      (
    match args with
    | a0 :: _ =>
      andThenR (ev a0 env c) fun lv c1 =>
        match lv with
        | .list items =>
          match flattenVals items with
          | .error e => some (.error e, c1)
          | .ok vs => some (.ok (.list vs), c1)
        | _ => some (.error "concat: argument must be a list", c1)
    | _ => some (.error "concat requires 1 argument", c)
      ) := rfl

theorem evalBuiltinB_elem (ev : EvalFn) (evApp : EvalAppFn)
    (args : List Expr) (env : Env) (c : Nat) :
    evalBuiltinB ev evApp "elem" args env c =
      (
    match args with
    | a0 :: a1 :: _ =>
      andThenR (ev a0 env c) fun item c1 =>
        andThenR (ev a1 env c1) fun lv c2 =>
          match lv with
          | .list items => some (.ok (.bool (items.any (fun v => valueEq v item))), c2)
          | _ => some (.error "elem: second argument must be a list", c2)
    | _ => some (.error "elem requires 2 arguments", c)
      ) := rfl

theorem evalBuiltinB_unknown (ev : EvalFn) (evApp : EvalAppFn)
    (name : String) (args : List Expr) (env : Env) (c : Nat)
    (h1 : ¬ name = "map") (h2 : ¬ name = "filter") (h3 : ¬ name = "fold")
    (h4 : ¬ name = "foldl") (h5 : ¬ name = "foldr") (h6 : ¬ name = "zip")
    (h7 : ¬ name = "take") (h8 : ¬ name = "drop") (h9 : ¬ name = "reverse")
    (h10 : ¬ name = "sort") (h11 : ¬ name = "length") (h12 : ¬ name = "head")
    (h13 : ¬ name = "tail") (h14 : ¬ name = "sum") (h15 : ¬ name = "product")
    (h16 : ¬ name = "concat") (h17 : ¬ name = "elem") :
    evalBuiltinB ev evApp name args env c
      = some (.error ("Unknown builtin: " ++ name), c) := by
  unfold evalBuiltinB
  rw [if_neg h1, if_neg h2, if_neg (by simp [h3, h4]), if_neg h5, if_neg h6,
    if_neg h7, if_neg h8, if_neg h9, if_neg h10, if_neg h11, if_neg h12,
    if_neg h13, if_neg h14, if_neg h15, if_neg h16, if_neg h17]



theorem evalBuiltinB_restore {ev : EvalFn} {evApp : EvalAppFn}
    (hev : RestoresOnOk ev) (happ : RestoresOnOkApp evApp) :
    ∀ name args env cIn r c,
      evalBuiltinB ev evApp name args env cIn = some (.ok r, c) → c = cIn := by
  intro name args env cIn r c h
  by_cases e1 : name = "map"
  · subst e1
    rw [evalBuiltinB_map] at h
    split at h
    · refine restore_chain (fun a c1 hh => hev _ _ _ _ _ hh) ?_ h
      intro f c1 b2 c2 hk
      refine restore_chain (fun a c3 hh => hev _ _ _ _ _ hh) ?_ hk
      intro lv c3 b3 c4 hk2
      split at hk2
      · exact restore_chain (fun a c5 hh => mapLoopB_restore happ _ _ _ _ _ _ hh)
          (fun a c5 b4 c6 hk3 => ok_counter hk3) hk2
      · exact ok_counter hk2
    · exact ok_counter h
  by_cases e2 : name = "filter"
  · subst e2
    rw [evalBuiltinB_filter] at h
    split at h
    · refine restore_chain (fun a c1 hh => hev _ _ _ _ _ hh) ?_ h
      intro f c1 b2 c2 hk
      refine restore_chain (fun a c3 hh => hev _ _ _ _ _ hh) ?_ hk
      intro lv c3 b3 c4 hk2
      split at hk2
      · exact restore_chain (fun a c5 hh => filterLoopB_restore happ _ _ _ _ _ _ hh)
          (fun a c5 b4 c6 hk3 => ok_counter hk3) hk2
      · exact ok_counter hk2
    · exact ok_counter h
  by_cases e3 : name = "fold"
  · subst e3
    rw [evalBuiltinB_fold] at h
    split at h
    · refine restore_chain (fun a c1 hh => hev _ _ _ _ _ hh) ?_ h
      intro f c1 b2 c2 hk
      refine restore_chain (fun a c3 hh => hev _ _ _ _ _ hh) ?_ hk
      intro acc0 c3 b3 c4 hk2
      refine restore_chain (fun a c5 hh => hev _ _ _ _ _ hh) ?_ hk2
      intro lv c5 b4 c6 hk3
      split at hk3
      · exact foldLoopB_restore happ _ _ _ _ _ _ _ hk3
      · exact ok_counter hk3
    · exact ok_counter h
  by_cases e4 : name = "foldl"
  · subst e4
    rw [evalBuiltinB_foldl] at h
    split at h
    · refine restore_chain (fun a c1 hh => hev _ _ _ _ _ hh) ?_ h
      intro f c1 b2 c2 hk
      refine restore_chain (fun a c3 hh => hev _ _ _ _ _ hh) ?_ hk
      intro acc0 c3 b3 c4 hk2
      refine restore_chain (fun a c5 hh => hev _ _ _ _ _ hh) ?_ hk2
      intro lv c5 b4 c6 hk3
      split at hk3
      · exact foldLoopB_restore happ _ _ _ _ _ _ _ hk3
      · exact ok_counter hk3
    · exact ok_counter h
  by_cases e5 : name = "foldr"
  · subst e5
    rw [evalBuiltinB_foldr] at h
    split at h
    · refine restore_chain (fun a c1 hh => hev _ _ _ _ _ hh) ?_ h
      intro f c1 b2 c2 hk
      refine restore_chain (fun a c3 hh => hev _ _ _ _ _ hh) ?_ hk
      intro acc0 c3 b3 c4 hk2
      refine restore_chain (fun a c5 hh => hev _ _ _ _ _ hh) ?_ hk2
      intro lv c5 b4 c6 hk3
      split at hk3
      · exact foldrLoopB_restore happ _ _ _ _ _ _ _ hk3
      · exact ok_counter hk3
    · exact ok_counter h
  by_cases e6 : name = "zip"
  · subst e6
    rw [evalBuiltinB_zip] at h
    split at h
    · refine restore_chain (fun a c1 hh => hev _ _ _ _ _ hh) ?_ h
      intro v1 c1 b2 c2 hk
      refine restore_chain (fun a c3 hh => hev _ _ _ _ _ hh) ?_ hk
      intro v2 c3 b3 c4 hk2
      split at hk2 <;> exact ok_counter hk2
    · exact ok_counter h
  by_cases e7 : name = "take"
  · subst e7
    rw [evalBuiltinB_take] at h
    split at h
    · refine restore_chain (fun a c1 hh => hev _ _ _ _ _ hh) ?_ h
      intro v1 c1 b2 c2 hk
      refine restore_chain (fun a c3 hh => hev _ _ _ _ _ hh) ?_ hk
      intro v2 c3 b3 c4 hk2
      split at hk2 <;> exact ok_counter hk2
    · exact ok_counter h
  by_cases e8 : name = "drop"
  · subst e8
    rw [evalBuiltinB_drop] at h
    split at h
    · refine restore_chain (fun a c1 hh => hev _ _ _ _ _ hh) ?_ h
      intro v1 c1 b2 c2 hk
      refine restore_chain (fun a c3 hh => hev _ _ _ _ _ hh) ?_ hk
      intro v2 c3 b3 c4 hk2
      split at hk2 <;> exact ok_counter hk2
    · exact ok_counter h
  by_cases e9 : name = "reverse"
  · subst e9
    rw [evalBuiltinB_reverse] at h
    split at h
    · refine restore_chain (fun a c1 hh => hev _ _ _ _ _ hh) ?_ h
      intro lv c1 b2 c2 hk
      split at hk <;> exact ok_counter hk
    · exact ok_counter h
  by_cases e10 : name = "sort"
  · subst e10
    rw [evalBuiltinB_sort] at h
    split at h
    · refine restore_chain (fun a c1 hh => hev _ _ _ _ _ hh) ?_ h
      intro lv c1 b2 c2 hk
      split at hk
      · split at hk <;> exact ok_counter hk
      · exact ok_counter hk
    · exact ok_counter h
  by_cases e11 : name = "length"
  · subst e11
    rw [evalBuiltinB_length] at h
    split at h
    · refine restore_chain (fun a c1 hh => hev _ _ _ _ _ hh) ?_ h
      intro lv c1 b2 c2 hk
      split at hk <;> exact ok_counter hk
    · exact ok_counter h
  by_cases e12 : name = "head"
  · subst e12
    rw [evalBuiltinB_head] at h
    split at h
    · refine restore_chain (fun a c1 hh => hev _ _ _ _ _ hh) ?_ h
      intro lv c1 b2 c2 hk
      split at hk
      · split at hk <;> exact ok_counter hk
      · exact ok_counter hk
    · exact ok_counter h
  by_cases e13 : name = "tail"
  · subst e13
    rw [evalBuiltinB_tail] at h
    split at h
    · refine restore_chain (fun a c1 hh => hev _ _ _ _ _ hh) ?_ h
      intro lv c1 b2 c2 hk
      split at hk
      · split at hk <;> exact ok_counter hk
      · exact ok_counter hk
    · exact ok_counter h
  by_cases e14 : name = "sum"
  · subst e14
    rw [evalBuiltinB_sum] at h
    split at h
    · refine restore_chain (fun a c1 hh => hev _ _ _ _ _ hh) ?_ h
      intro lv c1 b2 c2 hk
      split at hk
      · split at hk <;> exact ok_counter hk
      · exact ok_counter hk
    · exact ok_counter h
  by_cases e15 : name = "product"
  · subst e15
    rw [evalBuiltinB_product] at h
    split at h
    · refine restore_chain (fun a c1 hh => hev _ _ _ _ _ hh) ?_ h
      intro lv c1 b2 c2 hk
      split at hk
      · split at hk <;> exact ok_counter hk
      · exact ok_counter hk
    · exact ok_counter h
  by_cases e16 : name = "concat"
  · subst e16
    rw [evalBuiltinB_concat] at h
    split at h
    · refine restore_chain (fun a c1 hh => hev _ _ _ _ _ hh) ?_ h
      intro lv c1 b2 c2 hk
      split at hk
      · split at hk <;> exact ok_counter hk
      · exact ok_counter hk
    · exact ok_counter h
  by_cases e17 : name = "elem"
  · subst e17
    rw [evalBuiltinB_elem] at h
    split at h
    · refine restore_chain (fun a c1 hh => hev _ _ _ _ _ hh) ?_ h
      intro v1 c1 b2 c2 hk
      refine restore_chain (fun a c3 hh => hev _ _ _ _ _ hh) ?_ hk
      intro v2 c3 b3 c4 hk2
      split at hk2 <;> exact ok_counter hk2
    · exact ok_counter h
  rw [evalBuiltinB_unknown _ _ _ _ _ _ e1 e2 e3 e4 e5 e6 e7 e8 e9 e10 e11 e12 e13 e14 e15 e16 e17] at h
  exact ok_counter h

theorem evalAppB_restore {ev : EvalFn} {evAppPrev : EvalAppFn}
    (hev : RestoresOnOk ev) (happ : RestoresOnOkApp evAppPrev) :
    RestoresOnOkApp (evalAppB ev evAppPrev) := by
  intro fexpr args env d v c h
  unfold evalAppB at h
  refine restore_chain (fun a c1 hh => hev _ _ _ _ _ hh) ?_ h
  intro fv c1 b2 c2 hk
  cases fv
  case function params body fenv =>
    simp only at hk
    split at hk
    · refine restore_chain (fun a c3 hh => bindArgsB_restore hev _ _ _ _ _ _ _ hh) ?_ hk
      intro newEnv c3 b3 c4 hk2
      exact ok_counter hk2
    · split at hk
      · refine restore_chain (fun a c3 hh => bindArgsB_restore hev _ _ _ _ _ _ _ hh) ?_ hk
        intro newEnv c3 b3 c4 hk2
        exact hev _ _ _ _ _ hk2
      · refine restore_chain (fun a c3 hh => bindArgsB_restore hev _ _ _ _ _ _ _ hh) ?_ hk
        intro newEnv c3 b3 c4 hk2
        refine restore_chain (fun a c5 hh => hev _ _ _ _ _ hh) ?_ hk2
        intro result c5 b4 c6 hk3
        split at hk3
        · exact ok_counter hk3
        · exact happ _ _ _ _ _ _ hk3
  case builtin name =>
    exact evalBuiltinB_restore hev happ _ _ _ _ _ _ hk
  all_goals exact ok_counter hk

theorem evalBinopB_restore {ev : EvalFn} {evApp : EvalAppFn}
    (hev : RestoresOnOk ev) (happ : RestoresOnOkApp evApp) :
    ∀ op l r env cIn v c, evalBinopB ev evApp op l r env cIn = some (.ok v, c) → c = cIn := by
  intro op l r env cIn v c h
  cases op
  case pipeForward =>
    rw [evalBinopB] at h
    refine restore_chain (fun a c1 hh => hev _ _ _ _ _ hh) ?_ h
    intro lv c1 b2 c2 hk
    obtain ⟨le, hle, hk2⟩ := withExpr_ok hk
    exact happ _ _ _ _ _ _ hk2
  case pipeBackward =>
    rw [evalBinopB] at h
    refine restore_chain (fun a c1 hh => hev _ _ _ _ _ hh) ?_ h
    intro rv c1 b2 c2 hk
    obtain ⟨re, hre, hk2⟩ := withExpr_ok hk
    exact happ _ _ _ _ _ _ hk2
  all_goals (
    simp only [evalBinopB] at h
    refine restore_chain (fun a c1 hh => hev _ _ _ _ _ hh) ?_ h
    intro lv c1 b2 c2 hk
    refine restore_chain (fun a c3 hh => hev _ _ _ _ _ hh) ?_ hk
    intro rv c3 b3 c4 hk2
    exact ok_counter hk2)

theorem evalListCompB_restore {ev : EvalFn} (hev : RestoresOnOk ev) :
    ∀ expr var lst guards env cIn v c,
      evalListCompB ev expr var lst guards env cIn = some (.ok v, c) → c = cIn := by
  intro expr var lst guards env cIn v c h
  unfold evalListCompB at h
  refine restore_chain (fun a c1 hh => hev _ _ _ _ _ hh) ?_ h
  intro lv c1 b2 c2 hk
  split at hk
  · exact restore_chain (fun a c3 hh => compLoopB_restore hev _ _ _ _ _ _ _ _ hh)
      (fun a c3 b3 c4 hk2 => ok_counter hk2) hk
  · exact ok_counter hk

theorem evalMatchB_restore {ev : EvalFn} (hev : RestoresOnOk ev) :
    ∀ scrut arms env cIn v c,
      evalMatchB ev scrut arms env cIn = some (.ok v, c) → c = cIn := by
  intro scrut arms env cIn v c h
  unfold evalMatchB at h
  refine restore_chain (fun a c1 hh => hev _ _ _ _ _ hh) ?_ h
  intro sv c1 b2 c2 hk
  exact armLoopB_restore hev _ _ _ _ _ _ hk

theorem decr_restore {r : Res} {dIn : Nat} {v : Value} {c : Nat}
    (hr : ∀ v2 c2, r = some (.ok v2, c2) → c2 = dIn + 1)
    (h : decr r = some (.ok v, c)) : c = dIn := by
  obtain ⟨c1, h1, h2⟩ := decr_ok h
  have := hr _ _ h1
  omega

theorem evalBodyB_restore {ev : EvalFn} {evApp : EvalAppFn}
    (hev : RestoresOnOk ev) (happ : RestoresOnOkApp evApp) :
    RestoresOnOk (evalBodyB ev evApp) := by
  intro e env d v c h
  unfold evalBodyB at h
  split at h
  · simp at h
  cases e
  case num k => have := ok_counter h; omega
  case bool b => have := ok_counter h; omega
  case str s => have := ok_counter h; omega
  case lambda params body => have := ok_counter h; omega
  case range s e2 => have := ok_counter h; omega
  case list items =>
    simp only at h
    obtain ⟨vs, c1, h1, h2⟩ := andThenR_ok h
    have e1 := evalListElemsB_restore hev _ _ _ _ _ h1
    have e2 := ok_counter h2
    omega
  case var name =>
    simp only at h
    split at h
    · have := ok_counter h; omega
    · obtain ⟨c1, h1, h2⟩ := decr_ok h
      have := forceB_restore hev _ _ _ _ h1
      omega
  case app f args =>
    simp only at h
    obtain ⟨c1, h1, h2⟩ := decr_ok h
    have := happ _ _ _ _ _ _ h1
    omega
  case letE name value body =>
    simp only at h
    obtain ⟨c1, h1, h2⟩ := decr_ok h
    have := hev _ _ _ _ _ h1
    omega
  case ifE cond thenB elseB =>
    simp only at h
    obtain ⟨cv, c1, h1, h2⟩ := andThenR_ok h
    have e1 := hev _ _ _ _ _ h1
    cases cv
    case bool b =>
      cases b
      case true =>
        simp only at h2
        obtain ⟨c2, h3, h4⟩ := decr_ok h2
        have := hev _ _ _ _ _ h3
        omega
      case false =>
        simp only at h2
        obtain ⟨c2, h3, h4⟩ := decr_ok h2
        have := hev _ _ _ _ _ h3
        omega
    all_goals (have hcc := ok_counter h2; omega)
  case binop op l r =>
    simp only at h
    obtain ⟨c1, h1, h2⟩ := decr_ok h
    have := evalBinopB_restore hev happ _ _ _ _ _ _ _ h1
    omega
  case unop op e1 =>
    cases op
    simp only at h
    obtain ⟨uv, c1, h1, h2⟩ := andThenR_ok h
    have e1 := hev _ _ _ _ _ h1
    cases uv
    case num k => have := ok_counter h2; omega
    all_goals (have hcc := ok_counter h2; omega)
  case listComp expr var lst guards =>
    simp only at h
    obtain ⟨c1, h1, h2⟩ := decr_ok h
    have := evalListCompB_restore hev _ _ _ _ _ _ _ _ h1
    omega
  case matchE scrut arms =>
    simp only at h
    obtain ⟨c1, h1, h2⟩ := decr_ok h
    have := evalMatchB_restore hev _ _ _ _ _ _ h1
    omega

/-- The counter-restoration invariant at every fuel level. -/
theorem restore_all : ∀ n, RestoresOnOk (eval n) ∧ RestoresOnOkApp (eval_app n) := by
  intro n
  induction n with
  | zero =>
    constructor
    · intro e env d v c h
      simp [eval_zero] at h
    · intro f args env d v c h
      simp [eval_app_zero] at h
  | succ n ih =>
    have hev : RestoresOnOk (eval (n+1)) := by
      rw [eval_succ]
      exact evalBodyB_restore ih.1 ih.2
    refine ⟨hev, ?_⟩
    rw [eval_app_succ]
    exact evalAppB_restore hev ih.2

/-! C10: range semantics -/

theorem rangeVals_of_gt (s e : Int) (h : e < s) : rangeVals s e = [] := by
  unfold rangeVals
  rw [if_neg (by omega)]

theorem rangeVals_self (s : Int) : rangeVals s s = [s] := by
  unfold rangeVals
  rw [if_pos (le_refl s)]
  have h1 : (s - s).toNat + 1 = 1 := by omega
  rw [h1]
  simp [List.range_succ]

/-- Claim C10: a range expression with start greater than end evaluates
successfully to the empty list, and a degenerate range start..start evaluates
to the one-element list containing start (no error in either case). -/
theorem c10_test (n : Nat) (s e : Int) (env : Env) (d : Nat) (hd : d ≤ MAX_CALL_DEPTH) :
    (s > e → eval (n+1) (.range s e) env d = some (.ok (.list []), d)) ∧
    eval (n+1) (.range s s) env d = some (.ok (.list [.num s]), d) := by
  constructor
  · intro hgt
    rw [eval_succ]
    unfold evalBodyB
    rw [if_neg (by omega : ¬ d > MAX_CALL_DEPTH)]
    simp [rangeVals_of_gt s e (by omega)]
  · rw [eval_succ]
    unfold evalBodyB
    rw [if_neg (by omega : ¬ d > MAX_CALL_DEPTH)]
    simp [rangeVals_self]

/-! C6 / C9: builtin arities -/

/-- Claim C6: every builtin of the catalogue applied to fewer argument
expressions than its declared arity (map, filter, zip, take, drop, elem: 2;
fold, foldl, foldr: 3; the rest: 1) evaluates to the arity-error message
name ++ " requires k argument(s)" rather than to a partially applied
function value, at any fuel, environment and depth counter. -/
theorem c6_test :
    ∀ name k, (name, k) ∈ builtinArities →
      ∀ args : List Expr, args.length < k →
        ∀ n env d, eval_builtin n name args env d = some (.error (arityMsg name k), d) := by
  intro name k hmem
  fin_cases hmem <;>
    (intro args hlen n env d
     rcases args with _ | ⟨a0, _ | ⟨a1, _ | ⟨a2, rest⟩⟩⟩ <;>
       first
         | rfl
         | (exfalso; simp only [List.length_cons, List.length_nil] at hlen; omega))

/-- Claim C9: every builtin applied to more argument expressions than its
declared arity gives exactly the result of applying it to its first
arity-many arguments; the extra argument expressions are dropped without
ever being evaluated (the whole call is literally equal for any fuel,
environment and counter, so no arity error is raised for over-application). -/
theorem c9_test :
    ∀ name k, (name, k) ∈ builtinArities →
      ∀ (args extra : List Expr), args.length = k →
        ∀ n env d, eval_builtin n name (args ++ extra) env d = eval_builtin n name args env d := by
  intro name k hmem
  fin_cases hmem <;>
    (intro args extra hlen n env d
     rcases args with _ | ⟨a0, _ | ⟨a1, _ | ⟨a2, _ | ⟨a3, rest⟩⟩⟩⟩ <;>
       first
         | rfl
         | (exfalso; simp only [List.length_cons, List.length_nil] at hlen; omega))

/-! C2: over-application -/

theorem andThenR_bind {α β : Type} (v : α) (c : Nat)
    (k : α → Nat → Option (Except String β × Nat)) :
    andThenR (some (.ok v, c)) k = k v c := rfl

/-- Claim C2 (corrected): over-application of a closure with fewer
parameters than arguments binds the first parameters-many arguments,
evaluates the body, and then applies the remaining arguments to the variable
_result in the SINGLETON environment [("_result", result)] — not in the
caller's environment as the spec states.  The remaining argument expressions
are therefore resolved against an environment holding only _result. -/
theorem c2_test (fE : Expr) (args : List Expr) (env : Env)
    (params : List String) (body : Expr) (fenv newEnv : Env)
    (result : Value) (n d c2 c3 : Nat)
    (hlen : params.length < args.length)
    (hf : eval (n+1) fE env d = some (.ok (.function params body fenv), d))
    (hbind : bindArgsB (eval (n+1)) params args env fenv d = some (.ok newEnv, c2))
    (hbody : eval (n+1) body newEnv c2 = some (.ok result, c3))
    (hne : args.drop params.length ≠ []) :
    eval_app (n+1) fE args env d =
      eval_app n (.var "_result") (args.drop params.length)
        [("_result", result)] c3 := by
  rw [eval_app_succ]
  unfold evalAppB
  rw [hf, andThenR_bind]
  simp only []
  rw [if_neg (by omega), if_neg (by omega), hbind, andThenR_bind, hbody, andThenR_bind]
  rw [if_neg (by simp [List.isEmpty_iff, hne])]

theorem c2_test_witness :
    eval_app 10 (.lambda ["x"] (.lambda ["z"] (.var "x"))) [.num 1, .var "y"]
        [("y", .num 2)] 0 =
      eval_app 9 (.var "_result") [.var "y"]
        [("_result", .function ["z"] (.var "x") [("x", .num 1), ("y", .num 2)])] 0 :=
  c2_test (.lambda ["x"] (.lambda ["z"] (.var "x"))) [.num 1, .var "y"]
    [("y", .num 2)] ["x"] (.lambda ["z"] (.var "x")) [("y", .num 2)]
    [("x", .num 1), ("y", .num 2)]
    (.function ["z"] (.var "x") [("x", .num 1), ("y", .num 2)]) 9 0 0 0
    (by decide) rfl rfl rfl (List.cons_ne_nil _ _)

/-- Claim C2, counterexample to the spec as written: over-applying
(\x -> \z -> x) to (1, y) where y is bound in the caller's environment
fails with an undefined-variable error for y, while the curried two-step
application ((\x -> \z -> x) 1) y succeeds and yields 1. -/
theorem c2_counterexample :
    eval 10 (.app (.lambda ["x"] (.lambda ["z"] (.var "x"))) [.num 1, .var "y"])
        [("y", .num 2)] 0 = some (.error "Undefined variable: y", 0) ∧
    eval 10 (.app (.app (.lambda ["x"] (.lambda ["z"] (.var "x"))) [.num 1]) [.var "y"])
        [("y", .num 2)] 0 = some (.ok (.num 1), 0) :=
  ⟨rfl, rfl⟩

/-! C3: pipes go through value_to_expr -/

/-- Claim C3 (corrected): a pipe x >> f (and f << x) evaluates x to a value
v, converts v BACK TO AN EXPRESSION via value_to_expr, and applies f to that
literal expression.  It agrees with f x only insofar as the literalized value
re-evaluates to v; for closures the captured environment is dropped by
value_to_expr, so the spec's equivalence with f x fails. -/
theorem c3_test (x f : Expr) (env : Env) (d n : Nat) (v : Value) (le : Expr)
    (hd : d ≤ MAX_CALL_DEPTH)
    (hx : eval n x env (d+1) = some (.ok v, d+1))
    (hle : value_to_expr v = .ok le) :
    eval (n+1) (.binop .pipeForward x f) env d =
      decr (eval_app n f [le] env (d+1)) ∧
    eval (n+1) (.binop .pipeBackward f x) env d =
      decr (eval_app n f [le] env (d+1)) := by
  constructor
  · rw [eval_succ]
    unfold evalBodyB
    rw [if_neg (by omega)]
    simp only [evalBinopB]
    rw [hx, andThenR_bind]
    simp only [withExpr, hle]
  · rw [eval_succ]
    unfold evalBodyB
    rw [if_neg (by omega)]
    simp only [evalBinopB]
    rw [hx, andThenR_bind]
    simp only [withExpr, hle]

theorem c3_test_witness :
    eval 10 (.binop .pipeForward (.num 3) (.lambda ["h"] (.var "h"))) [] 0 =
      decr (eval_app 9 (.lambda ["h"] (.var "h")) [.num 3] [] 1) ∧
    eval 10 (.binop .pipeBackward (.lambda ["h"] (.var "h")) (.num 3)) [] 0 =
      decr (eval_app 9 (.lambda ["h"] (.var "h")) [.num 3] [] 1) :=
  c3_test (.num 3) (.lambda ["h"] (.var "h")) [] 0 9 (.num 3) (.num 3)
    (by decide) rfl rfl

/-- Claim C3, counterexample to the spec as written: when x evaluates to a
closure capturing a let-bound variable, x >> (\h -> h 0) errors with an
undefined variable (the pipe re-builds the closure as a bare lambda, losing
its captured environment), while the direct application of the same function
to x yields 7. -/
theorem c3_counterexample :
    eval 20 (.binop .pipeForward
        (.letE "a" (.num 7) (.lambda ["z"] (.var "a")))
        (.lambda ["h"] (.app (.var "h") [.num 0]))) [] 0 =
      some (.error "Undefined variable: a", 0) ∧
    eval 20 (.app (.lambda ["h"] (.app (.var "h") [.num 0]))
        [.letE "a" (.num 7) (.lambda ["z"] (.var "a"))]) [] 0 =
      some (.ok (.num 7), 0) :=
  ⟨rfl, rfl⟩

/-! C7: take n xs ++ drop n xs = xs -/

/-- Claim C7: for any expression xs evaluating to a list vs and any integer
literal n, evaluating `take n xs ++ drop n xs` in an environment where take
and drop are the builtins yields exactly vs (take clamps n to [0, length]
and drop is symmetric, so the two parts always recompose). -/
theorem c7_test (k : Nat) (xsE : Expr) (nl : Int) (env : Env) (vs : List Value) (d : Nat)
    (hT : envGet "take" env = some (.builtin "take"))
    (hD : envGet "drop" env = some (.builtin "drop"))
    (hxs : eval (k+1) xsE env (d+2) = some (.ok (.list vs), d+2))
    (hd : d + 2 ≤ MAX_CALL_DEPTH) :
    eval (k+3) (.binop .concat
        (.app (.var "take") [.num nl, xsE])
        (.app (.var "drop") [.num nl, xsE])) env d
      = some (.ok (.list vs), d) := by
  have hnum : eval (k+1) (.num nl) env (d+2) = some (.ok (.num nl), d+2) := by
    rw [eval_succ k]; unfold evalBodyB
    rw [if_neg (by omega)]
    rfl
  have hvarT : eval (k+1) (.var "take") env (d+2) = some (.ok (.builtin "take"), d+2) := by
    rw [eval_succ k]; unfold evalBodyB
    rw [if_neg (by omega)]
    simp only [hT]
    rfl
  have hvarD : eval (k+1) (.var "drop") env (d+2) = some (.ok (.builtin "drop"), d+2) := by
    rw [eval_succ k]; unfold evalBodyB
    rw [if_neg (by omega)]
    simp only [hD]
    rfl
  have happT : eval_app (k+1) (.var "take") [.num nl, xsE] env (d+2)
      = some (.ok (.list (vs.take (max nl 0).toNat)), d+2) := by
    rw [eval_app_succ k]
    simp only [evalAppB, hvarT, andThenR_bind, evalBuiltinB_take, hnum, hxs]
  have happD : eval_app (k+1) (.var "drop") [.num nl, xsE] env (d+2)
      = some (.ok (.list (vs.drop (max nl 0).toNat)), d+2) := by
    rw [eval_app_succ k]
    simp only [evalAppB, hvarD, andThenR_bind, evalBuiltinB_drop, hnum, hxs]
  have hL : eval (k+2) (.app (.var "take") [.num nl, xsE]) env (d+1)
      = some (.ok (.list (vs.take (max nl 0).toNat)), d+1) := by
    have e2 : k+2 = (k+1)+1 := rfl
    rw [e2, eval_succ (k+1)]
    unfold evalBodyB
    rw [if_neg (by omega)]
    show decr (eval_app (k+1) (.var "take") [.num nl, xsE] env (d+2)) = _
    rw [happT]
    rfl
  have hR : eval (k+2) (.app (.var "drop") [.num nl, xsE]) env (d+1)
      = some (.ok (.list (vs.drop (max nl 0).toNat)), d+1) := by
    have e2 : k+2 = (k+1)+1 := rfl
    rw [e2, eval_succ (k+1)]
    unfold evalBodyB
    rw [if_neg (by omega)]
    show decr (eval_app (k+1) (.var "drop") [.num nl, xsE] env (d+2)) = _
    rw [happD]
    rfl
  have e3 : k+3 = (k+2)+1 := rfl
  rw [e3, eval_succ (k+2)]
  unfold evalBodyB
  rw [if_neg (by omega)]
  show decr (evalBinopB (eval (k+2)) (eval_app (k+2)) .concat
      (.app (.var "take") [.num nl, xsE]) (.app (.var "drop") [.num nl, xsE]) env (d+1)) = _
  simp only [evalBinopB, hL, andThenR_bind, hR, applyBinOp, List.take_append_drop, decr]
  rfl

theorem c7_test_witness :
    eval 8 (.binop .concat
        (.app (.var "take") [.num 2, .list [.num 1, .num 2, .num 3]])
        (.app (.var "drop") [.num 2, .list [.num 1, .num 2, .num 3]]))
      get_builtin_env 0
      = some (.ok (.list [.num 1, .num 2, .num 3]), 0) :=
  c7_test 5 (.list [.num 1, .num 2, .num 3]) 2 get_builtin_env
    [.num 1, .num 2, .num 3] 0 rfl rfl rfl (by decide)

/-! C4: depth counter -/

/-- Claim C4 (corrected): the call-depth counter is restored on every eval
that returns a success (counter out equals counter in), and any eval entered
with the counter above MAX_CALL_DEPTH = 10000 aborts with the
maximum-recursion-depth error.  The spec's stronger statement that the
counter is also restored on every error exit is refuted by
c4_counterexample. -/
theorem c4_test (n : Nat) (e : Expr) (env : Env) (d : Nat) :
    (∀ v c, eval n e env d = some (.ok v, c) → c = d) ∧
    (d > MAX_CALL_DEPTH →
      eval (n+1) e env d = some (.error "Maximum recursion depth exceeded", d)) := by
  constructor
  · intro v c h
    exact (restore_all n).1 e env d v c h
  · intro hgt
    rw [eval_succ]
    unfold evalBodyB
    rw [if_pos hgt]

/-- Claim C4, counterexample to the spec as written: an if expression whose
condition errors exits through the `?` early return of the interpreter,
skipping the trailing decrement, so the counter comes back 1 instead of the
entry value 0. -/
theorem c4_counterexample :
    eval 10 (.ifE (.var "nope") (.num 1) (.num 2)) [] 0
      = some (.error "Undefined variable: nope", 1) := rfl

/-! C1: let-thunks do not capture their own binding -/

/-- Claim C1 (code bug): the fib challenge program errors with
"Undefined variable: fib" instead of evaluating to 55, because the Let thunk
captures the environment from before the binding is inserted; likewise
`let x = x in x` reports x as undefined instead of resolving the binding to
itself. -/
theorem c1_counterexample :
    eval 50 (.letE "fib"
        (.lambda ["n"] (.matchE (.var "n")
          [(.num 0, .num 0), (.num 1, .num 1),
           (.wildcard, .binop .add
              (.app (.var "fib") [.binop .sub (.var "n") (.num 1)])
              (.app (.var "fib") [.binop .sub (.var "n") (.num 2)]))]))
        (.app (.var "fib") [.num 10])) get_builtin_env 0
      = some (.error "Undefined variable: fib", 0) ∧
    eval 10 (.letE "x" (.var "x") (.var "x")) [] 0
      = some (.error "Undefined variable: x", 0) :=
  ⟨rfl, rfl⟩

/-! Witnesses for c10/c6/c9 -/

theorem c10_test_witness :
    ((5 : Int) > 3 → eval 2 (.range 5 3) [] 0 = some (.ok (.list []), 0)) ∧
    eval 2 (.range 5 5) [] 0 = some (.ok (.list [.num 5]), 0) :=
  c10_test 1 5 3 [] 0 (by decide)

theorem c6_test_witness :
    eval_builtin 1 "map" [] [] 0 = some (.error (arityMsg "map" 2), 0) :=
  c6_test "map" 2 (by decide) [] (by decide) 1 [] 0

theorem c9_test_witness :
    eval_builtin 1 "length" ([.list []] ++ [.num 5]) [] 0
      = eval_builtin 1 "length" [.list []] [] 0 :=
  c9_test "length" 1 (by decide) [.list []] [.num 5] (by decide) 1 [] 0

/-! C8: harness error handling -/

/-- Claim C8: when any stage of execute_with_timeout (parse, type check,
re-parse, evaluate) errors, run_single_test returns passed = false, an empty
actual string and the error in the error field; when execution succeeds with
printed result `actual`, it returns error = none and passed exactly when
actual and the expected string are equal after trimming both. -/
theorem c8_test (tfuel efuel : Nat) (code : String) (tc : TestCase) :
    (∀ e, execute_with_timeout tfuel efuel code tc.input = some (.error e) →
      run_single_test tfuel efuel code tc =
        some ⟨false, tc.expected, "", tc.description, some e⟩) ∧
    (∀ actual, execute_with_timeout tfuel efuel code tc.input = some (.ok actual) →
      run_single_test tfuel efuel code tc =
        some ⟨actual.trim == tc.expected.trim, tc.expected.trim, actual.trim,
              tc.description, none⟩) := by
  constructor
  · intro e h
    unfold run_single_test
    rw [h]
  · intro actual h
    unfold run_single_test
    rw [h]

/-! C5: round-trip development -/

/-! Digit round-trip lemmas. -/

theorem digitChar_toNat {d : Nat} (h : d < 10) : (digitChar d).toNat = 48 + d := by
  interval_cases d <;> decide

theorem digitsToNat_append_digit (xs : List Char) (c : Char) :
    digitsToNat (xs ++ [c]) = digitsToNat xs * 10 + (c.toNat - 48) := by
  simp [digitsToNat, List.foldl_append]

theorem digitsToNat_natCharsAux : ∀ f n, n ≤ f → digitsToNat (natCharsAux f n) = n := by
  intro f
  induction f with
  | zero =>
    intro n hn
    interval_cases n
    simp [natCharsAux, digitsToNat]
  | succ f ih =>
    intro n hn
    match n with
    | 0 => simp [natCharsAux, digitsToNat]
    | m+1 =>
      rw [natCharsAux, digitsToNat_append_digit]
      have hdiv : (m+1) / 10 ≤ f := by
        have := Nat.div_lt_self (Nat.succ_pos m) (by omega : 1 < 10)
        omega
      rw [ih _ hdiv, digitChar_toNat (Nat.mod_lt _ (by omega))]
      have := Nat.div_add_mod (m+1) 10
      omega

theorem digitsToNat_natChars (n : Nat) : digitsToNat (natChars n) = n := by
  unfold natChars
  by_cases h : n = 0
  · simp [h, digitsToNat]
  · rw [if_neg h]
    exact digitsToNat_natCharsAux (n+1) n (by omega)

/-- Every character of natCharsAux is a digit character. -/
theorem natCharsAux_digitChar : ∀ f n c, c ∈ natCharsAux f n → ∃ d, d < 10 ∧ c = digitChar d := by
  intro f
  induction f with
  | zero => intro n c hc; simp [natCharsAux] at hc
  | succ f ih =>
    intro n c hc
    match n with
    | 0 => simp [natCharsAux] at hc
    | m+1 =>
      rw [natCharsAux] at hc
      rcases List.mem_append.mp hc with h1 | h2
      · exact ih _ _ h1
      · simp at h2
        exact ⟨(m+1) % 10, Nat.mod_lt _ (by omega), h2⟩

theorem natChars_digitChar (n : Nat) :
    ∀ c ∈ natChars n, ∃ d, d < 10 ∧ c = digitChar d := by
  intro c hc
  unfold natChars at hc
  by_cases h : n = 0
  · simp [h] at hc
    exact ⟨0, by omega, by rw [hc]; decide⟩
  · rw [if_neg h] at hc
    exact natCharsAux_digitChar _ _ _ hc

theorem natChars_ne_nil (n : Nat) : natChars n ≠ [] := by
  unfold natChars
  by_cases h : n = 0
  · simp [h]
  · rw [if_neg h]
    match n, h with
    | m+1, _ =>
      rw [natCharsAux]
      simp

/-! Character-class facts about digit characters. -/

theorem dc_not_ws {d : Nat} (h : d < 10) : (digitChar d).isWhitespace = false := by
  interval_cases d <;> decide

theorem dc_isDigit {d : Nat} (h : d < 10) : (digitChar d).isDigit = true := by
  interval_cases d <;> decide

theorem dc_ne_gt {d : Nat} (h : d < 10) : digitChar d ≠ '>' := by
  interval_cases d <;> decide

theorem dc_ne_minus {d : Nat} (h : d < 10) : digitChar d ≠ '-' := by
  interval_cases d <;> decide

/-! takeWhile / dropWhile over an all-true chunk followed by a boundary. -/

theorem takeWhile_append_all {p : Char → Bool} {xs ys : List Char}
    (hx : ∀ c ∈ xs, p c = true) (hy : headFails p ys) :
    (xs ++ ys).takeWhile p = xs := by
  induction xs with
  | nil =>
    cases ys with
    | nil => rfl
    | cons c cs =>
      simp only [headFails] at hy
      simp [List.takeWhile, hy]
  | cons a as ih =>
    have ha : p a = true := hx a (List.mem_cons_self a as)
    simp only [List.cons_append, List.takeWhile, ha]
    show a :: List.takeWhile p (as ++ ys) = a :: as
    rw [ih (fun c hc => hx c (List.mem_cons_of_mem a hc))]

theorem dropWhile_append_all {p : Char → Bool} {xs ys : List Char}
    (hx : ∀ c ∈ xs, p c = true) (hy : headFails p ys) :
    (xs ++ ys).dropWhile p = ys := by
  induction xs with
  | nil =>
    cases ys with
    | nil => rfl
    | cons c cs =>
      simp only [headFails] at hy
      simp [List.dropWhile, hy]
  | cons a as ih =>
    have ha : p a = true := hx a (List.mem_cons_self a as)
    simp only [List.cons_append, List.dropWhile, ha]
    show List.dropWhile p (as ++ ys) = ys
    exact ih (fun c hc => hx c (List.mem_cons_of_mem a hc))

/-- One unfolding of the tokenizer on a cons cell (definitional). -/
theorem tokenizeAux_cons_eq (f : Nat) (c : Char) (cs : List Char) :
    tokenizeAux (f+1) (c :: cs) =
      (if c.isWhitespace then tokenizeAux f cs
      else if c.isDigit then
        match tokenizeAux f (cs.dropWhile Char.isDigit) with
        | .error e => .error e
        | .ok ts => .ok (.num (digitsToNat (c :: cs.takeWhile Char.isDigit)) :: ts)
      else if isIdentStart c then
        match tokenizeAux f (cs.dropWhile isIdentChar) with
        | .error e => .error e
        | .ok ts => .ok (identToken (String.mk (c :: cs.takeWhile isIdentChar)) :: ts)
      else if c = '"' then
        match cs.dropWhile notQuote with
        | '"' :: rest2 =>
          match tokenizeAux f rest2 with
          | .error e => .error e
          | .ok ts => .ok (.strLit (String.mk (cs.takeWhile notQuote)) :: ts)
        | _ => .error "Unterminated string literal"
      else if c = '-' ∧ cs.head? = some '-' then
        tokenizeAux f (cs.dropWhile notNewline)
      else
        match cs with
        | c2 :: rest =>
          match twoCharTok c c2 with
          | some t =>
            match tokenizeAux f rest with
            | .error e => .error e
            | .ok ts => .ok (t :: ts)
          | none =>
            match oneCharTok c with
            | some t =>
              match tokenizeAux f (c2 :: rest) with
              | .error e => .error e
              | .ok ts => .ok (t :: ts)
            | none => .error ("Unexpected character: " ++ String.mk [c])
        | [] =>
          match oneCharTok c with
          | some t => .ok [t]
          | none => .error ("Unexpected character: " ++ String.mk [c])) := rfl

/-! Tokenizer one-step equations. -/

theorem tokenizeAux_step_ws {f : Nat} {c : Char} {cs : List Char}
    (hws : c.isWhitespace = true) :
    tokenizeAux (f+1) (c :: cs) = tokenizeAux f cs := by
  rw [tokenizeAux_cons_eq]
  simp only [hws, if_true]

theorem tokenizeAux_step_digit {f : Nat} {c : Char} {cs : List Char}
    (hws : c.isWhitespace = false) (hdig : c.isDigit = true) :
    tokenizeAux (f+1) (c :: cs) =
      (match tokenizeAux f (cs.dropWhile Char.isDigit) with
       | .error e => .error e
       | .ok ts => .ok (.num (digitsToNat (c :: cs.takeWhile Char.isDigit)) :: ts)) := by
  rw [tokenizeAux_cons_eq]
  simp only [hws, hdig, Bool.false_eq_true, if_false, if_true]

theorem tokenizeAux_step_ident {f : Nat} {c : Char} {cs : List Char}
    (hws : c.isWhitespace = false) (hdig : c.isDigit = false)
    (hid : isIdentStart c = true) :
    tokenizeAux (f+1) (c :: cs) =
      (match tokenizeAux f (cs.dropWhile isIdentChar) with
       | .error e => .error e
       | .ok ts => .ok (identToken (String.mk (c :: cs.takeWhile isIdentChar)) :: ts)) := by
  rw [tokenizeAux_cons_eq]
  simp only [hws, hdig, hid, Bool.false_eq_true, if_false, if_true]

theorem tokenizeAux_step_quote {f : Nat} {cs rest2 : List Char}
    (hdrop : cs.dropWhile notQuote = '"' :: rest2) :
    tokenizeAux (f+1) ('"' :: cs) =
      (match tokenizeAux f rest2 with
       | .error e => .error e
       | .ok ts => .ok (.strLit (String.mk (cs.takeWhile notQuote)) :: ts)) := by
  rw [tokenizeAux_cons_eq]
  simp only [show ('"').isWhitespace = false from rfl,
    show ('"').isDigit = false from rfl, show isIdentStart '"' = false from rfl,
    Bool.false_eq_true, if_false, if_pos rfl, hdrop]
  rw [if_pos trivial]

theorem tokenizeAux_step_symbol {f : Nat} {c c2 : Char} {rest : List Char} {t : Token}
    (hws : c.isWhitespace = false) (hdig : c.isDigit = false)
    (hid : isIdentStart c = false) (hq : c ≠ '"')
    (hcm : ¬(c = '-' ∧ (c2 :: rest).head? = some '-'))
    (h2 : twoCharTok c c2 = none) (h1 : oneCharTok c = some t) :
    tokenizeAux (f+1) (c :: c2 :: rest) =
      (match tokenizeAux f (c2 :: rest) with
       | .error e => .error e
       | .ok ts => .ok (t :: ts)) := by
  rw [tokenizeAux_cons_eq]
  simp only [hws, hdig, hid, hq, Bool.false_eq_true, if_false, if_true]
  rw [if_neg hcm]
  simp only [h2, h1]

theorem tokenizeAux_step_symbol_last {f : Nat} {c : Char} {t : Token}
    (hws : c.isWhitespace = false) (hdig : c.isDigit = false)
    (hid : isIdentStart c = false) (hq : c ≠ '"')
    (hcm : ¬(c = '-' ∧ ([] : List Char).head? = some '-'))
    (h1 : oneCharTok c = some t) :
    tokenizeAux (f+1) [c] = .ok [t] := by
  rw [tokenizeAux_cons_eq]
  simp only [hws, hdig, hid, hq, Bool.false_eq_true, if_false, if_true]
  rw [if_neg hcm]
  simp only [h1]

/-! TokOk: the tokenizer yields these tokens at every sufficient fuel. -/

theorem tokOk_nil : TokOk [] [] := by
  intro f hf
  match f, hf with
  | f+1, _ => rfl

theorem tokOk_ws (c : Char) {rest : List Char} {ts : List Token}
    (hws : c.isWhitespace = true) (h : TokOk rest ts) : TokOk (c :: rest) ts := by
  intro f hf
  simp only [List.length_cons] at hf
  match f, hf with
  | f+1, hf =>
    rw [tokenizeAux_step_ws hws]
    exact h f (by omega)

theorem tokOk_symbol_gen (c : Char) (t : Token)
    (hone : oneCharTok c = some t)
    (hws : c.isWhitespace = false) (hdig : c.isDigit = false)
    (hid : isIdentStart c = false) (hq : c ≠ '"') (hminus : c ≠ '-')
    (htwo : ∀ c2, twoCharTok c c2 = none)
    {rest : List Char} {ts : List Token} (h : TokOk rest ts) :
    TokOk (c :: rest) (t :: ts) := by
  intro f hf
  simp only [List.length_cons] at hf
  match f, hf with
  | f+1, hf =>
    cases rest with
    | nil =>
      have h1 : (Except.ok [] : Except String (List Token)) = .ok ts := h 1 (by simp)
      have h0 : ts = [] := (Except.ok.inj h1).symm
      subst h0
      rw [tokenizeAux_step_symbol_last hws hdig hid hq (fun hh => hminus hh.1) hone]
    | cons c2 r2 =>
      rw [tokenizeAux_step_symbol hws hdig hid hq (fun hh => hminus hh.1) (htwo c2) hone]
      rw [h f (by simpa using hf)]

theorem twoCharTok_lbracket (c2 : Char) : twoCharTok '[' c2 = none := by
  unfold twoCharTok
  repeat rw [if_neg (fun hh => absurd hh.1 (by decide))]

theorem twoCharTok_rbracket (c2 : Char) : twoCharTok ']' c2 = none := by
  unfold twoCharTok
  repeat rw [if_neg (fun hh => absurd hh.1 (by decide))]

theorem twoCharTok_comma (c2 : Char) : twoCharTok ',' c2 = none := by
  unfold twoCharTok
  repeat rw [if_neg (fun hh => absurd hh.1 (by decide))]

theorem twoCharTok_minus {c2 : Char} (hc2 : c2 ≠ '>') : twoCharTok '-' c2 = none := by
  unfold twoCharTok
  rw [if_neg (fun hh => hc2 hh.2)]
  repeat rw [if_neg (fun hh => absurd hh.1 (by decide))]

theorem tokOk_lbracket {rest : List Char} {ts : List Token} (h : TokOk rest ts) :
    TokOk ('[' :: rest) (.lbracket :: ts) :=
  tokOk_symbol_gen '[' .lbracket (by decide) (by decide) (by decide) (by decide)
    (by decide) (by decide) twoCharTok_lbracket h

theorem tokOk_rbracket {rest : List Char} {ts : List Token} (h : TokOk rest ts) :
    TokOk (']' :: rest) (.rbracket :: ts) :=
  tokOk_symbol_gen ']' .rbracket (by decide) (by decide) (by decide) (by decide)
    (by decide) (by decide) twoCharTok_rbracket h

theorem tokOk_comma {rest : List Char} {ts : List Token} (h : TokOk rest ts) :
    TokOk (',' :: rest) (.comma :: ts) :=
  tokOk_symbol_gen ',' .comma (by decide) (by decide) (by decide) (by decide)
    (by decide) (by decide) twoCharTok_comma h

theorem tokOk_digits {m : Nat} {rest : List Char} {ts : List Token}
    (h : TokOk rest ts) (hb : headFails Char.isDigit rest) :
    TokOk (natChars m ++ rest) (.num m :: ts) := by
  obtain ⟨c, ds, hsplit⟩ : ∃ c ds, natChars m = c :: ds := by
    cases hnc : natChars m with
    | nil => exact absurd hnc (natChars_ne_nil m)
    | cons c ds => exact ⟨c, ds, rfl⟩
  have hall := natChars_digitChar m
  obtain ⟨dc, hdc10, hceq⟩ := hall c (by rw [hsplit]; exact List.mem_cons_self _ _)
  have hds : ∀ x ∈ ds, Char.isDigit x = true := by
    intro x hx
    obtain ⟨d, hd10, hxeq⟩ := hall x (by rw [hsplit]; exact List.mem_cons_of_mem _ hx)
    rw [hxeq]; exact dc_isDigit hd10
  intro f hf
  rw [hsplit] at hf ⊢
  simp only [List.cons_append, List.length_cons, List.length_append] at hf ⊢
  match f, hf with
  | f+1, hf =>
    rw [tokenizeAux_step_digit (by rw [hceq]; exact dc_not_ws hdc10)
        (by rw [hceq]; exact dc_isDigit hdc10)]
    rw [dropWhile_append_all hds hb, takeWhile_append_all hds hb]
    rw [h f (by omega)]
    have hm : digitsToNat (c :: ds) = m := by rw [← hsplit]; exact digitsToNat_natChars m
    rw [hm]

theorem tokOk_neg_digits {m : Nat} {rest : List Char} {ts : List Token}
    (h : TokOk rest ts) (hb : headFails Char.isDigit rest) :
    TokOk ('-' :: (natChars m ++ rest)) (.opMinus :: .num m :: ts) := by
  obtain ⟨c, ds, hsplit⟩ : ∃ c ds, natChars m = c :: ds := by
    cases hnc : natChars m with
    | nil => exact absurd hnc (natChars_ne_nil m)
    | cons c ds => exact ⟨c, ds, rfl⟩
  obtain ⟨dc, hdc10, hceq⟩ := natChars_digitChar m c
    (by rw [hsplit]; exact List.mem_cons_self _ _)
  intro f hf
  simp only [List.length_cons] at hf
  match f, hf with
  | f+1, hf =>
    have hstep : tokenizeAux (f+1) ('-' :: (natChars m ++ rest)) =
        (match tokenizeAux f (natChars m ++ rest) with
         | .error e => .error e
         | .ok ts2 => .ok (.opMinus :: ts2)) := by
      rw [hsplit, List.cons_append]
      exact tokenizeAux_step_symbol (by decide) (by decide) (by decide) (by decide)
        (by
          intro hh
          have := hh.2
          simp only [List.head?] at this
          rw [hceq] at this
          exact dc_ne_minus hdc10 (Option.some.inj this))
        (by rw [hceq]; exact twoCharTok_minus (dc_ne_gt hdc10)) (by decide)
    rw [hstep, tokOk_digits h hb f (by omega)]

/-- String.mk of toList is the string itself. -/
theorem mk_toList (s : String) : String.mk s.toList = s := rfl

theorem tokOk_str {s : String} {rest : List Char} {ts : List Token}
    (hs : ∀ c ∈ s.toList, c ≠ '"') (h : TokOk rest ts) :
    TokOk ('"' :: (s.toList ++ '"' :: rest)) (.strLit s :: ts) := by
  have hall : ∀ c ∈ s.toList, notQuote c = true := by
    intro c hc
    simp [notQuote, hs c hc]
  have hhf : headFails notQuote ('"' :: rest) := by
    simp [headFails, notQuote]
  intro f hf
  simp only [List.length_cons, List.length_append] at hf
  match f, hf with
  | f+1, hf =>
    rw [tokenizeAux_step_quote (dropWhile_append_all hall hhf)]
    rw [takeWhile_append_all hall hhf, mk_toList]
    rw [h f (by omega)]

theorem tokOk_true {rest : List Char} {ts : List Token}
    (h : TokOk rest ts) (hb : headFails isIdentChar rest) :
    TokOk ("true".toList ++ rest) (.boolLit true :: ts) := by
  intro f hf
  rw [show "true".toList ++ rest = 't' :: (['r', 'u', 'e'] ++ rest) from rfl] at hf ⊢
  simp only [List.length_cons, List.length_append] at hf
  match f, hf with
  | f+1, hf =>
    rw [tokenizeAux_step_ident (by decide) (by decide) (by decide)]
    rw [dropWhile_append_all (by decide) hb, takeWhile_append_all (by decide) hb]
    rw [h f (by omega)]
    rfl

theorem tokOk_false {rest : List Char} {ts : List Token}
    (h : TokOk rest ts) (hb : headFails isIdentChar rest) :
    TokOk ("false".toList ++ rest) (.boolLit false :: ts) := by
  intro f hf
  rw [show "false".toList ++ rest = 'f' :: (['a', 'l', 's', 'e'] ++ rest) from rfl] at hf ⊢
  simp only [List.length_cons, List.length_append] at hf
  match f, hf with
  | f+1, hf =>
    rw [tokenizeAux_step_ident (by decide) (by decide) (by decide)]
    rw [dropWhile_append_all (by decide) hb, takeWhile_append_all (by decide) hb]
    rw [h f (by omega)]
    rfl

/-! The printed form of a printable value tokenizes to its token stream. -/

theorem boundary_digit {rest : List Char} (hb : BoundaryC rest) :
    headFails Char.isDigit rest := by
  cases rest with
  | nil => trivial
  | cons c cs => rcases hb with h | h <;> subst h <;> exact rfl

theorem boundary_ident {rest : List Char} (hb : BoundaryC rest) :
    headFails isIdentChar rest := by
  cases rest with
  | nil => trivial
  | cons c cs => rcases hb with h | h <;> subst h <;> exact rfl

theorem toList_append (a b : String) : (a ++ b).toList = a.toList ++ b.toList := rfl

theorem tok_repr {v : Value} (h : Printable v) :
    ∀ (rest : List Char) (ts : List Token), TokOk rest ts → BoundaryC rest →
    TokOk ((to_string_repr v).toList ++ rest) (tokensOfVal v ++ ts) := by
  induction h with
  | num n =>
    intro rest ts hr hb
    by_cases hneg : n < 0
    · have hch : (to_string_repr (.num n)).toList = '-' :: natChars (-n).toNat := by
        show (intRepr n).toList = _
        unfold intRepr intChars
        rw [if_pos hneg]
        rfl
      have htk : tokensOfVal (.num n) = [.opMinus, .num (-n).toNat] := by
        unfold tokensOfVal
        rw [if_pos hneg]
      rw [hch, htk, List.cons_append]
      exact tokOk_neg_digits hr (boundary_digit hb)
    · have hch : (to_string_repr (.num n)).toList = natChars n.toNat := by
        show (intRepr n).toList = _
        unfold intRepr intChars
        rw [if_neg hneg]
        rfl
      have htk : tokensOfVal (.num n) = [.num n.toNat] := by
        unfold tokensOfVal
        rw [if_neg hneg]
      rw [hch, htk]
      exact tokOk_digits hr (boundary_digit hb)
  | bool b =>
    intro rest ts hr hb
    cases b
    · exact tokOk_false hr (boundary_ident hb)
    · exact tokOk_true hr (boundary_ident hb)
  | str s hs =>
    intro rest ts hr hb
    have hch : (to_string_repr (.str s)).toList ++ rest =
        '"' :: (s.toList ++ '"' :: rest) := by
      show ("\"" ++ s ++ "\"").toList ++ rest = _
      rw [toList_append, toList_append]
      simp [List.append_assoc]
    rw [hch]
    exact tokOk_str hs hr
  | list items hmem ih =>
    intro rest ts hr hb
    have inner : ∀ its, (∀ v ∈ its, v ∈ items) →
        ∀ (rest : List Char) (ts : List Token), TokOk rest ts → BoundaryC rest →
        TokOk ((joinComma (reprListVals its)).toList ++ ']' :: rest)
          (tokensInner its ++ .rbracket :: ts) := by
      intro its
      induction its with
      | nil =>
        intro _ rest ts hr hb
        have := tokOk_rbracket hr
        simpa [reprListVals, joinComma, tokensInner] using this
      | cons v0 vs ihl =>
        intro hsub rest ts hr hb
        cases vs with
        | nil =>
          have h0 := ih v0 (hsub v0 (List.mem_cons_self _ _)) (']' :: rest)
            (.rbracket :: ts) (tokOk_rbracket hr) (Or.inr rfl)
          simpa [reprListVals, joinComma, tokensInner, tokensComma] using h0
        | cons v1 vs2 =>
          have hrec := ihl (fun v hv => hsub v (List.mem_cons_of_mem _ hv)) rest ts hr hb
          have hwsp := tokOk_ws ' ' (by decide)
            (hrec : TokOk ((joinComma (reprListVals (v1 :: vs2))).toList ++ ']' :: rest)
              (tokensInner (v1 :: vs2) ++ .rbracket :: ts))
          have hcomma := tokOk_comma hwsp
          have h0 := ih v0 (hsub v0 (List.mem_cons_self _ _))
            (',' :: ' ' :: ((joinComma (reprListVals (v1 :: vs2))).toList ++ ']' :: rest))
            (.comma :: (tokensInner (v1 :: vs2) ++ .rbracket :: ts))
            hcomma (Or.inl rfl)
          have hjoin : (joinComma (reprListVals (v0 :: v1 :: vs2))).toList ++ ']' :: rest =
              (to_string_repr v0).toList ++
                (',' :: ' ' :: ((joinComma (reprListVals (v1 :: vs2))).toList ++ ']' :: rest)) := by
            show (joinComma (to_string_repr v0 :: reprListVals (v1 :: vs2))).toList ++ ']' :: rest = _
            rw [show joinComma (to_string_repr v0 :: reprListVals (v1 :: vs2)) =
                to_string_repr v0 ++ ", " ++ joinComma (reprListVals (v1 :: vs2)) from by
              simp [reprListVals, joinComma]]
            rw [toList_append, toList_append]
            simp [List.append_assoc]
          rw [hjoin]
          have hteq : tokensInner (v0 :: v1 :: vs2) ++ .rbracket :: ts =
              tokensOfVal v0 ++
                (.comma :: (tokensInner (v1 :: vs2) ++ .rbracket :: ts)) := by
            simp [tokensInner, tokensComma, List.append_assoc]
          rw [hteq]
          exact h0
    have hch : (to_string_repr (.list items)).toList ++ rest =
        '[' :: ((joinComma (reprListVals items)).toList ++ ']' :: rest) := by
      show ("[" ++ joinComma (reprListVals items) ++ "]").toList ++ rest = _
      rw [toList_append, toList_append]
      simp [List.append_assoc]
    have htk : tokensOfVal (.list items) ++ ts =
        .lbracket :: (tokensInner items ++ .rbracket :: ts) := by
      show (.lbracket :: (tokensInner items ++ [.rbracket])) ++ ts = _
      simp [List.append_assoc]
    rw [hch, htk]
    exact tokOk_lbracket (inner items (fun v hv => hv) rest ts hr hb)

/-! Parser-side lemmas. -/

theorem tokensOfVal_head {v : Value} (h : Printable v) :
    ∃ t0 r0, tokensOfVal v = t0 :: r0 ∧ HeadVal t0 := by
  cases h with
  | num n =>
    by_cases hneg : n < 0
    · exact ⟨.opMinus, [.num (-n).toNat], by unfold tokensOfVal; rw [if_pos hneg], trivial⟩
    · exact ⟨.num n.toNat, [], by unfold tokensOfVal; rw [if_neg hneg], trivial⟩
  | bool b => exact ⟨.boolLit b, [], rfl, trivial⟩
  | str s hs => exact ⟨.strLit s, [], rfl, trivial⟩
  | list items hmem => exact ⟨.lbracket, _, rfl, trivial⟩

theorem tokBoundary_shapes {ts : List Token} (hb : TokBoundary ts) :
    ts = [] ∨ (∃ tl, ts = .comma :: tl) ∨ (∃ tl, ts = .rbracket :: tl) := by
  cases ts with
  | nil => exact .inl rfl
  | cons t tl =>
    rcases hb with h | h <;> subst h
    · exact .inr (.inl ⟨tl, rfl⟩)
    · exact .inr (.inr ⟨tl, rfl⟩)

theorem parse_chain {m : Nat} {t0 : Token} {rest0 ts' : List Token} {e : Expr}
    (hh : HeadVal t0)
    (hu : parseUnary (m+1) (t0 :: rest0) = .ok (e, ts'))
    (hb : TokBoundary ts') :
    parseExpr (m+10) (t0 :: rest0) = .ok (e, ts') := by
  have h1 : parseExpr (m+10) (t0 :: rest0) = parsePipe (m+9) (t0 :: rest0) := by
    cases t0 <;> first | exact hh.elim | rfl
  rw [h1]
  rcases tokBoundary_shapes hb with h' | ⟨tl, h'⟩ | ⟨tl, h'⟩ <;> subst h' <;>
    simp only [parsePipe, parseLogic, parseComp, parseCons, parseConcat,
      parseAdd, parseMul, parsePow, hu, parsePipeLoop, parseLogicLoop,
      parseAddLoop, parseMulLoop, cmpOpOf]

theorem parse_num_pos (m k : Nat) {rest : List Token} (hb : TokBoundary rest) :
    parseUnary (m+3) (.num k :: rest) = .ok (.num (Int.ofNat k), rest) := by
  rcases tokBoundary_shapes hb with h' | ⟨tl, h'⟩ | ⟨tl, h'⟩ <;> subst h' <;>
    simp [parseUnary, parseApp, parsePrimary, parseAppLoop, startsPrimary]

theorem parse_num_neg (m k : Nat) {rest : List Token} (hb : TokBoundary rest) :
    parseUnary (m+4) (.opMinus :: .num k :: rest) =
      .ok (.unop .neg (.num (Int.ofNat k)), rest) := by
  have h1 : parseUnary (m+4) (.opMinus :: .num k :: rest) =
      (match parseUnary (m+3) (.num k :: rest) with
       | .error e => .error e
       | .ok (e1, ts1) => .ok (.unop .neg e1, ts1)) := rfl
  rw [h1, parse_num_pos m k hb]

theorem parse_bool (m : Nat) (b : Bool) {rest : List Token} (hb : TokBoundary rest) :
    parseUnary (m+3) (.boolLit b :: rest) = .ok (.bool b, rest) := by
  rcases tokBoundary_shapes hb with h' | ⟨tl, h'⟩ | ⟨tl, h'⟩ <;> subst h' <;>
    simp [parseUnary, parseApp, parsePrimary, parseAppLoop, startsPrimary]

theorem parse_str (m : Nat) (s : String) {rest : List Token} (hb : TokBoundary rest) :
    parseUnary (m+3) (.strLit s :: rest) = .ok (.str s, rest) := by
  rcases tokBoundary_shapes hb with h' | ⟨tl, h'⟩ | ⟨tl, h'⟩ <;> subst h' <;>
    simp [parseUnary, parseApp, parsePrimary, parseAppLoop, startsPrimary]

theorem parse_listnil (m : Nat) {rest : List Token} (hb : TokBoundary rest) :
    parseUnary (m+3) (.lbracket :: .rbracket :: rest) = .ok (.list [], rest) := by
  rcases tokBoundary_shapes hb with h' | ⟨tl, h'⟩ | ⟨tl, h'⟩ <;> subst h' <;>
    simp [parseUnary, parseApp, parsePrimary, parseAppLoop, startsPrimary]

theorem tokBoundary_comma_tail (vs : List Value) (r : List Token) :
    TokBoundary (tokensComma vs ++ .rbracket :: r) := by
  cases vs with
  | nil => exact Or.inr rfl
  | cons v vs2 => exact Or.inl rfl

theorem punary_val {v : Value} (h : Printable v) :
    ∀ n, pufuel v ≤ n → ∀ rest, TokBoundary rest →
      parseUnary n (tokensOfVal v ++ rest) = .ok (astOf v, rest) := by
  induction h with
  | num n0 =>
    intro n hn rest hb
    simp only [pufuel] at hn
    obtain ⟨m, rfl⟩ : ∃ m, n = m + 4 := ⟨n - 4, by omega⟩
    by_cases hneg : n0 < 0
    · rw [show tokensOfVal (.num n0) = [.opMinus, .num (-n0).toNat] from by
          unfold tokensOfVal; rw [if_pos hneg],
        show astOf (.num n0) = .unop .neg (.num (-n0)) from by
          unfold astOf; rw [if_pos hneg]]
      have h2 := parse_num_neg m (-n0).toNat hb
      rw [show (Int.ofNat (-n0).toNat : Int) = -n0 from
        Int.toNat_of_nonneg (by omega)] at h2
      exact h2
    · rw [show tokensOfVal (.num n0) = [.num n0.toNat] from by
          unfold tokensOfVal; rw [if_neg hneg],
        show astOf (.num n0) = .num n0 from by
          unfold astOf; rw [if_neg hneg]]
      have h2 := parse_num_pos (m+1) n0.toNat hb
      rw [show (Int.ofNat n0.toNat : Int) = n0 from
        Int.toNat_of_nonneg (by omega)] at h2
      exact h2
  | bool b =>
    intro n hn rest hb
    simp only [pufuel] at hn
    obtain ⟨m, rfl⟩ : ∃ m, n = m + 3 := ⟨n - 3, by omega⟩
    exact parse_bool m b hb
  | str s hs =>
    intro n hn rest hb
    simp only [pufuel] at hn
    obtain ⟨m, rfl⟩ : ∃ m, n = m + 3 := ⟨n - 3, by omega⟩
    exact parse_str m s hb
  | list items hmem ih =>
    have hlr : ∀ vs2, (∀ v ∈ vs2, v ∈ items) → ∀ f, plfuel vs2 ≤ f →
        ∀ r, TokBoundary r →
        parseListRest f (tokensComma vs2 ++ .rbracket :: r) = .ok (astOfList vs2, r) := by
      intro vs2
      induction vs2 with
      | nil =>
        intro _ f hf r hbr
        simp only [plfuel] at hf
        obtain ⟨g, rfl⟩ : ∃ g, f = g + 1 := ⟨f - 1, by omega⟩
        rfl
      | cons v1 vs3 ih2 =>
        intro hsub f hf r hbr
        simp only [plfuel] at hf
        obtain ⟨m1, rfl⟩ : ∃ m1, f = (m1 + 10) + 1 := ⟨f - 11, by omega⟩
        have hbX : TokBoundary (tokensComma vs3 ++ .rbracket :: r) :=
          tokBoundary_comma_tail vs3 r
        obtain ⟨t1, r1, ht1, hh1⟩ := tokensOfVal_head (hmem v1 (hsub v1 (List.mem_cons_self _ _)))
        have hu1 := ih v1 (hsub v1 (List.mem_cons_self _ _)) (m1 + 1) (by omega)
          (tokensComma vs3 ++ .rbracket :: r) hbX
        have he1 : parseExpr (m1 + 10)
            (tokensOfVal v1 ++ (tokensComma vs3 ++ .rbracket :: r)) =
            .ok (astOf v1, tokensComma vs3 ++ .rbracket :: r) := by
          rw [ht1, List.cons_append]
          exact parse_chain hh1 (by rw [← List.cons_append, ← ht1]; exact hu1) hbX
        have hr3 := ih2 (fun v hv => hsub v (List.mem_cons_of_mem _ hv))
          (m1 + 10) (by omega) r hbr
        have hshape : tokensComma (v1 :: vs3) ++ .rbracket :: r =
            .comma :: (tokensOfVal v1 ++ (tokensComma vs3 ++ .rbracket :: r)) := by
          show (.comma :: (tokensOfVal v1 ++ tokensComma vs3)) ++ .rbracket :: r = _
          simp [List.append_assoc]
        rw [hshape]
        have e4 : parseListRest ((m1 + 10) + 1)
            (.comma :: (tokensOfVal v1 ++ (tokensComma vs3 ++ .rbracket :: r))) =
            (match parseExpr (m1 + 10)
                (tokensOfVal v1 ++ (tokensComma vs3 ++ .rbracket :: r)) with
             | .error e => .error e
             | .ok (e1, ts1) =>
               match parseListRest (m1 + 10) ts1 with
               | .error e => .error e
               | .ok (es, ts2) => .ok (e1 :: es, ts2)) := rfl
        rw [e4, he1]
        simp [hr3, astOfList]
    intro n hn rest hb
    cases items with
    | nil =>
      simp only [pufuel, plfuel] at hn
      obtain ⟨m, rfl⟩ : ∃ m, n = m + 3 := ⟨n - 3, by omega⟩
      exact parse_listnil m hb
    | cons v0 vs =>
      simp only [pufuel, plfuel] at hn
      obtain ⟨m, rfl⟩ : ∃ m, n = (m + 10) + 4 := ⟨n - 14, by omega⟩
      have hshape : tokensOfVal (.list (v0 :: vs)) ++ rest =
          .lbracket :: (tokensOfVal v0 ++ (tokensComma vs ++ .rbracket :: rest)) := by
        show (.lbracket :: (tokensInner (v0 :: vs) ++ [.rbracket])) ++ rest = _
        simp [tokensInner, List.append_assoc]
      rw [hshape]
      obtain ⟨t0, r0, ht0, hh0⟩ := tokensOfVal_head (hmem v0 (List.mem_cons_self _ _))
      have hbX : TokBoundary (tokensComma vs ++ .rbracket :: rest) :=
        tokBoundary_comma_tail vs rest
      have hu0 := ih v0 (List.mem_cons_self _ _) (m + 1) (by omega)
        (tokensComma vs ++ .rbracket :: rest) hbX
      have he0 : parseExpr (m + 10)
          (t0 :: (r0 ++ (tokensComma vs ++ .rbracket :: rest))) =
          .ok (astOf v0, tokensComma vs ++ .rbracket :: rest) := by
        rw [← List.cons_append, ← ht0]
        rw [ht0, List.cons_append]
        exact parse_chain hh0 (by rw [← List.cons_append, ← ht0]; exact hu0) hbX
      have hrest := hlr vs (fun v hv => List.mem_cons_of_mem _ hv)
        (m + 10) (by omega) rest hb
      rw [ht0, List.cons_append]
      have e1 : parseUnary ((m + 10) + 4)
          (.lbracket :: t0 :: (r0 ++ (tokensComma vs ++ .rbracket :: rest))) =
          (match parsePrimary ((m + 10) + 2)
              (.lbracket :: t0 :: (r0 ++ (tokensComma vs ++ .rbracket :: rest))) with
           | .error e => .error e
           | .ok (f0, ts1) => parseAppLoop ((m + 10) + 2) f0 ts1) := rfl
      rw [e1]
      have e2 : parsePrimary ((m + 10) + 2)
          (.lbracket :: t0 :: (r0 ++ (tokensComma vs ++ .rbracket :: rest))) =
          (match parseListAfterFirst ((m + 10) + 1)
              (t0 :: (r0 ++ (tokensComma vs ++ .rbracket :: rest))) with
           | .ok r => .ok r
           | .error _ => parseListComp ((m + 10) + 1)
               (t0 :: (r0 ++ (tokensComma vs ++ .rbracket :: rest)))) := by
        cases t0 <;> first | exact hh0.elim | rfl
      rw [e2]
      have e3 : parseListAfterFirst ((m + 10) + 1)
          (t0 :: (r0 ++ (tokensComma vs ++ .rbracket :: rest))) =
          (match parseExpr (m + 10)
              (t0 :: (r0 ++ (tokensComma vs ++ .rbracket :: rest))) with
           | .error e => .error e
           | .ok (e0, ts1) =>
             match parseListRest (m + 10) ts1 with
             | .error e => .error e
             | .ok (es, ts2) => .ok (.list (e0 :: es), ts2)) := rfl
      rw [e3, he0]
      simp only [hrest]
      rcases tokBoundary_shapes hb with h' | ⟨tl, h'⟩ | ⟨tl, h'⟩ <;> subst h' <;>
        simp [parseAppLoop, startsPrimary, astOf, astOfList]

theorem pufuel_pos (v : Value) : 3 ≤ pufuel v := by
  cases v <;> simp [pufuel] <;> omega

theorem parse_val {v : Value} (h : Printable v) (n : Nat)
    (hn : pufuel v + 9 ≤ n) (rest : List Token) (hb : TokBoundary rest) :
    parseExpr n (tokensOfVal v ++ rest) = .ok (astOf v, rest) := by
  obtain ⟨m, rfl⟩ : ∃ m, n = m + 10 := ⟨n - 10, by have := pufuel_pos v; omega⟩
  obtain ⟨t0, r0, ht0, hh0⟩ := tokensOfVal_head h
  have hu := punary_val h (m + 1) (by omega) rest hb
  rw [ht0, List.cons_append]
  exact parse_chain hh0 (by rw [← List.cons_append, ← ht0]; exact hu) hb

/-- Fuel-versus-token-count bound for the top-level parse. -/
theorem pufuel_le {v : Value} (h : Printable v) :
    pufuel v + 10 ≤ 14 * (tokensOfVal v).length := by
  induction h with
  | num n =>
    by_cases hneg : n < 0
    · rw [show tokensOfVal (.num n) = [.opMinus, .num (-n).toNat] from by
        unfold tokensOfVal; rw [if_pos hneg]]
      simp [pufuel]
    · rw [show tokensOfVal (.num n) = [.num n.toNat] from by
        unfold tokensOfVal; rw [if_neg hneg]]
      simp [pufuel]
  | bool b => simp [pufuel, tokensOfVal]
  | str s hs => simp [pufuel, tokensOfVal]
  | list items hmem ih =>
    have hB : ∀ its, (∀ x ∈ its, x ∈ items) →
        plfuel its ≤ 14 * (tokensComma its).length + 1 := by
      intro its
      induction its with
      | nil => simp [plfuel, tokensComma]
      | cons x xs ihB =>
        intro hsub
        have hx := ih x (hsub x (List.mem_cons_self _ _))
        have hxs := ihB (fun y hy => hsub y (List.mem_cons_of_mem _ hy))
        simp only [plfuel, tokensComma, List.length_cons, List.length_append]
        omega
    have hC : plfuel items ≤ 14 * (tokensInner items).length + 2 := by
      cases items with
      | nil => simp [plfuel, tokensInner]
      | cons x xs =>
        have hx := ih x (List.mem_cons_self _ _)
        have hxs := hB xs (fun y hy => List.mem_cons_of_mem _ hy)
        simp only [plfuel, tokensInner, List.length_append]
        omega
    show pufuel (.list items) + 10 ≤ 14 * (tokensOfVal (.list items)).length
    rw [show tokensOfVal (.list items) = .lbracket :: (tokensInner items ++ [.rbracket])
      from rfl]
    simp only [pufuel, List.length_cons, List.length_append]
    omega

theorem parse_repr {v : Value} (h : Printable v) :
    parse (to_string_repr v) = .ok (astOf v) := by
  have htok := tok_repr h [] [] tokOk_nil trivial
  simp only [List.append_nil] at htok
  have h1 : tokenize (to_string_repr v) = .ok (tokensOfVal v) := by
    unfold tokenize
    exact htok _ (by omega)
  have h2 := parse_val h (14 * (tokensOfVal v).length + 14)
    (by have := pufuel_le h; omega) [] trivial
  rw [List.append_nil] at h2
  unfold parse
  rw [h1]
  simp only [h2]

theorem eval_astOf {v : Value} (h : Printable v) :
    ∀ m d env, vdepth v ≤ m → d + vdepth v ≤ MAX_CALL_DEPTH + 1 →
      eval m (astOf v) env d = some (.ok v, d) := by
  induction h with
  | num n =>
    intro m d env hm hd
    by_cases hneg : n < 0
    · rw [show astOf (.num n) = .unop .neg (.num (-n)) from by
        unfold astOf; rw [if_pos hneg]]
      simp only [vdepth, if_pos hneg] at hm hd
      obtain ⟨m2, rfl⟩ : ∃ m2, m = m2 + 2 := ⟨m - 2, by omega⟩
      have hinner : eval (m2+1) (.num (-n)) env (d+1) = some (.ok (.num (-n)), d+1) := by
        rw [eval_succ]
        unfold evalBodyB
        rw [if_neg (by omega)]
        rfl
      rw [show m2 + 2 = (m2 + 1) + 1 from rfl, eval_succ]
      unfold evalBodyB
      rw [if_neg (by omega)]
      show andThenR (eval (m2+1) (.num (-n)) env (d+1)) _ = _
      rw [hinner, andThenR_bind]
      simp
    · rw [show astOf (.num n) = .num n from by unfold astOf; rw [if_neg hneg]]
      simp only [vdepth, if_neg hneg] at hm hd
      obtain ⟨m1, rfl⟩ : ∃ m1, m = m1 + 1 := ⟨m - 1, by omega⟩
      rw [eval_succ]
      unfold evalBodyB
      rw [if_neg (by omega)]
      rfl
  | bool b =>
    intro m d env hm hd
    simp only [vdepth] at hm hd
    obtain ⟨m1, rfl⟩ : ∃ m1, m = m1 + 1 := ⟨m - 1, by omega⟩
    rw [eval_succ]
    unfold evalBodyB
    rw [if_neg (by omega)]
    rfl
  | str s hs =>
    intro m d env hm hd
    simp only [vdepth] at hm hd
    obtain ⟨m1, rfl⟩ : ∃ m1, m = m1 + 1 := ⟨m - 1, by omega⟩
    rw [eval_succ]
    unfold evalBodyB
    rw [if_neg (by omega)]
    rfl
  | list items hmem ih =>
    intro m d env hm hd
    simp only [vdepth] at hm hd
    obtain ⟨m1, rfl⟩ : ∃ m1, m = m1 + 1 := ⟨m - 1, by omega⟩
    have hElems : ∀ its, (∀ x ∈ its, x ∈ items) → ∀ c,
        vdList its ≤ m1 → c + vdList its ≤ MAX_CALL_DEPTH + 1 →
        evalListElemsB (eval m1) (astOfList its) env c = some (.ok its, c) := by
      intro its
      induction its with
      | nil => intro _ c _ _; rfl
      | cons x xs ihE =>
        intro hsub c hits hcd
        simp only [vdList] at hits hcd
        have hx := ih x (hsub x (List.mem_cons_self _ _)) m1 c env
          (by omega : vdepth x ≤ m1)
          (by have := Nat.le_max_left (vdepth x) (vdList xs); omega)
        have hxs := ihE (fun y hy => hsub y (List.mem_cons_of_mem _ hy)) c
          (by omega) (by omega)
        show andThenR (eval m1 (astOf x) env c) _ = _
        rw [hx, andThenR_bind]
        show andThenR (evalListElemsB (eval m1) (astOfList xs) env c) _ = _
        rw [hxs, andThenR_bind]
    rw [show astOf (.list items) = .list (astOfList items) from rfl]
    rw [eval_succ]
    unfold evalBodyB
    rw [if_neg (by omega)]
    show andThenR (evalListElemsB (eval m1) (astOfList items) env (d+1)) _ = _
    rw [hElems items (fun x hx => hx) (d+1) (by omega) (by omega), andThenR_bind]
    rfl

/-! C5 claim theorems. -/

/-- Claim C5 (corrected): for every value built from numbers, booleans,
quote-free strings and lists of such, parsing the printed form yields the
literal AST astOf v, and evaluating that AST at any environment returns the
value itself — the round trip of the claim.  The quote-free restriction is
necessary: strings are printed without escape rewriting, so values whose
strings contain a double quote do not round-trip (c5_counterexample). -/
theorem c5_test (v : Value) (h : Printable v)
    (hdeep : vdepth v ≤ MAX_CALL_DEPTH + 1) :
    parse (to_string_repr v) = .ok (astOf v) ∧
    ∀ env, eval (vdepth v) (astOf v) env 0 = some (.ok v, 0) :=
  ⟨parse_repr h, fun env => eval_astOf h (vdepth v) 0 env (le_refl _) (by omega)⟩

theorem c5_test_witness :
    parse (to_string_repr (.list [.num (-2), .str "hi", .bool true])) =
      .ok (astOf (.list [.num (-2), .str "hi", .bool true])) ∧
    ∀ env, eval (vdepth (.list [.num (-2), .str "hi", .bool true]))
        (astOf (.list [.num (-2), .str "hi", .bool true])) env 0 =
      some (.ok (.list [.num (-2), .str "hi", .bool true]), 0) :=
  c5_test (.list [.num (-2), .str "hi", .bool true])
    (Printable.list _ (by
      intro x hx
      simp only [List.mem_cons, List.mem_singleton, List.not_mem_nil] at hx
      rcases hx with h | h | h | h
      · subst h; exact .num _
      · subst h; exact .str _ (by decide)
      · subst h; exact .bool _
      · exact absurd h (by simp)))
    (by decide)

/-- Claim C5, counterexample to the spec as written: the string value a"b
prints as "a"b" (no escaping), which does not even tokenize — the round trip
fails with an unterminated-string parse error. -/
theorem c5_counterexample :
    to_string_repr (.str "a\"b") = "\"a\"b\"" ∧
    parse "\"a\"b\"" = .error "Unterminated string literal" :=
  ⟨rfl, rfl⟩

end Less
